import Mathlib

/-!
Verification development for the `cleo` table layout and rendering engine
(`src/cleo/ui/table.py`).  Python strings are embedded as lists of
characters (`Str`); Python dicts keyed by column index are embedded as
insertion-ordered association lists; fallible Python code (operations that
raise) is embedded in `Except`.  The collaborator classes that are not part
of the sources (`TableCell`, `TableStyle`, `TableCellStyle`,
`TableSeparator`, the formatter and the output sink) are modelled from the
specification, as marked on each of their declarations.
-/

namespace Cleo

/-- Python strings, embedded as lists of characters. -/
abbrev Str := List Char

/-- String repetition, Python `s * n` (for a glyph `s` repeated `n` times). -/
def strRepeat (s : Str) (n : Nat) : Str :=
  (List.replicate n s).flatten

/-- Python `c in s` for a single character. -/
def hasChar (s : Str) (c : Char) : Bool :=
  s.contains c

/-- Python `s.count("\n")`. -/
def countNl (s : Str) : Nat :=
  s.countP (fun c => c = '\n')

/-- Python `s.split("\n")`: splits on every newline; an empty string gives
one empty piece. -/
def splitOnNl : Str → List Str
  | [] => [[]]
  | c :: r =>
    let rest := splitOnNl r
    if c = '\n' then [] :: rest
    else
      match rest with
      | h :: t => (c :: h) :: t
      | [] => [[c]]

/-- Python `"\n".join(pieces)`. -/
def joinNl : List Str → Str
  | [] => []
  | [s] => s
  | s :: r => s ++ '\n' :: joinNl r

/-- Python `s.replace("\n", m)` for a (possibly multi-character)
replacement `m`. -/
def replaceNl (m : Str) : Str → Str
  | [] => []
  | c :: r => (if c = '\n' then m else [c]) ++ replaceNl m r

/-- `s.take n = p` test, Python `s.startswith(p)` used for substring scans. -/
def startsWithStr (p s : Str) : Bool :=
  s.take p.length = p

/-- Python `needle in hay` (substring containment) for a nonempty needle. -/
def substrIn (needle : Str) : Str → Bool
  | [] => needle.isEmpty
  | c :: r => startsWithStr needle (c :: r) || substrIn needle r

/-- Worker for `replaceAllStr`; the fuel argument (an upper bound on the
string length, consumed one character at a time) makes the recursion
structural so that the kernel can evaluate it. -/
def replaceAllAux (needle repl : Str) : Nat → Str → Str
  | _, [] => []
  | 0, s => s
  | f + 1, c :: r =>
    if needle ≠ [] && startsWithStr needle (c :: r) then
      repl ++ replaceAllAux needle repl f ((c :: r).drop needle.length)
    else
      c :: replaceAllAux needle repl f r

/-- Python `s.replace(needle, repl)` for a nonempty needle: replaces all
occurrences left to right, non-overlapping. -/
def replaceAllStr (needle repl : Str) (s : Str) : Str :=
  replaceAllAux needle repl s.length s

/-- Python `"{}".format`-style template substitution: the first `{}` in the
template is replaced by the argument (every style template used by the
table holds exactly one `{}`). -/
def formatTpl (tpl arg : Str) : Str :=
  match tpl with
  | [] => []
  | '{' :: '}' :: r => arg ++ r
  | c :: r => c :: formatTpl r arg

/-- Modelled from the spec: the output sink collaborator's
`remove_format(text) -> plain_text` ("strip markup, for width
measurement").  Every `<...>`-delimited markup tag is removed; characters
outside tags are kept.  The flag tracks whether the scanner is inside a
tag. -/
def removeFormatAux (inTag : Bool) : Str → Str
  | [] => []
  | c :: r =>
    if inTag then
      if c = '>' then removeFormatAux false r else removeFormatAux true r
    else
      if c = '<' then removeFormatAux true r else c :: removeFormatAux false r

/-- Modelled from the spec: `remove_format` entry point (see
`removeFormatAux`). -/
def removeFormat (s : Str) : Str :=
  removeFormatAux false s

/-- Modelled from the spec: the formatter collaborator's
`escape_trailing_backslash(text) -> text`.  The spec gives only the
signature, so it is embedded as the identity; no claim exercises inputs
with trailing backslashes. -/
def escapeTrailingBackslash (s : Str) : Str := s

/-- Worker for `chopEvery` with a structural fuel bound (the string
length). -/
def chopEveryAux (w : Nat) : Nat → Str → List Str
  | _, [] => []
  | 0, s => [s]
  | f + 1, c :: r =>
    if w = 0 then [c :: r]
    else (c :: r).take w :: chopEveryAux w f ((c :: r).drop w)

/-- Hard-wrap helper for `formatAndWrap`: chops `s` into pieces of at most
`w` characters (`w ≥ 1`). -/
def chopEvery (w : Nat) (s : Str) : List Str :=
  chopEveryAux w s.length s

/-- Modelled from the spec: the formatter collaborator's
`format_and_wrap(text, width) -> text` ("markup-aware hard wrap"): the text
is hard-wrapped to the given width by inserting newlines.  (This
collaborator is unreachable in practice: the only setter that was meant to
populate `_column_max_widths` writes to `_column_widths` instead, so the
wrap branch never fires for API-built tables.) -/
def formatAndWrap (s : Str) (w : Nat) : Str :=
  joinNl (chopEvery w s)

/-- Padding alignment selector.  Modelled from the spec: a style carries "a
padding function (left/right/center alignment)"; `left` is Python
`str.ljust` (the default), `right` is `str.rjust`, `center` is
`str.center`. -/
inductive PadAlign
  | left
  | right
  | center
deriving DecidableEq, Repr

/-- Applies a padding function, Python `pad(content, width, char)`.  A
width not exceeding the content length leaves the content unchanged, as in
Python. -/
def padApply : PadAlign → Str → Nat → Char → Str
  | .left, s, w, c => s ++ List.replicate (w - s.length) c
  | .right, s, w, c => List.replicate (w - s.length) c ++ s
  | .center, s, w, c =>
    List.replicate ((w - s.length) / 2) c ++ s ++
      List.replicate (w - s.length - (w - s.length) / 2) c

/-- Modelled from the spec: `TableCellStyle` (the per-cell
"alignment/format override").  `_render_cell` reads exactly three things
from it: an optional explicit cell format template (`cell_format`), a
markup tag used to synthesise a format when the explicit one is absent
(`tag`), and a padding function (`pad`). -/
structure TableCellStyle where
  cellFormat : Option Str
  tag : Str
  padAlign : PadAlign
deriving DecidableEq, Repr

/-- Modelled from the spec: the closed tagged variant of cell values.  A
row entry is a plain string, a rich `TableCell` (text, colspan, rowspan,
optional per-cell style), a `TableSeparator` marker used as a cell (it is a
`TableCell` subclass with empty text and spans 1), or Python `None`
(appended by horizontal-mode transposition for missing entries). -/
inductive PyCell
  | plain (s : Str)
  | cell (text : Str) (colspan rowspan : Nat) (style : Option TableCellStyle)
  | sepcell
  | pynone
deriving DecidableEq, Repr

/-- Python `isinstance(x, TableCell)`; `TableSeparator` is a `TableCell`
subclass. -/
def PyCell.isTableCell : PyCell → Bool
  | .cell _ _ _ _ => true
  | .sepcell => true
  | _ => false

/-- Python `isinstance(x, TableSeparator)` on a cell. -/
def PyCell.isSep : PyCell → Bool
  | .sepcell => true
  | _ => false

/-- The Python string value of a cell (`TableCell` is a `str` subclass
whose value is the cell text; a separator's value is the empty string).
`None` has no string value; the call sites that would raise on it are
embedded in `Except`, so the `[]` returned here is never observed. -/
def PyCell.textOf : PyCell → Str
  | .plain s => s
  | .cell t _ _ _ => t
  | .sepcell => []
  | .pynone => []

/-- Python `cell.colspan if isinstance(cell, TableCell) else 1`. -/
def PyCell.colspanOf : PyCell → Nat
  | .cell _ c _ _ => c
  | _ => 1

/-- The rowspan of a cell (1 for anything that is not a rich cell). -/
def PyCell.rowspanOf : PyCell → Nat
  | .cell _ _ r _ => r
  | _ => 1

/-- The per-cell style of a cell (`None` for anything that is not a rich
cell). -/
def PyCell.styleOf : PyCell → Option TableCellStyle
  | .cell _ _ _ st => st
  | _ => none

/-- A stored row: either a `TableSeparator` marker or a list of cells
(`_Row`). -/
inductive PyRow
  | sep
  | cells (cs : List PyCell)
deriving DecidableEq, Repr

/-- Modelled from the spec: `TableStyle`, the visual theme: four border
glyphs (`border_chars = [horizontal-outside, vertical-outside,
horizontal-inside, vertical-inside]`), the default crossing glyph plus the
11 positional crossing glyphs, the cell format templates, the padding
character and the padding function, and the title format templates. -/
structure TableStyle where
  paddingChar : Char
  hOutside : Str
  hInside : Str
  vOutside : Str
  vInside : Str
  crossingChar : Str
  crossTopLeft : Str
  crossTopMid : Str
  crossTopRight : Str
  crossMidRight : Str
  crossBottomRight : Str
  crossBottomMid : Str
  crossBottomLeft : Str
  crossMidLeft : Str
  crossTopLeftBottom : Str
  crossTopMidBottom : Str
  crossTopRightBottom : Str
  cellHeaderFormat : Str
  cellRowFormat : Str
  cellRowContentFormat : Str
  borderFormat : Str
  headerTitleFormat : Str
  footerTitleFormat : Str
  padAlign : PadAlign
deriving DecidableEq, Repr

/-- `style.border_chars`: `[horizontal-outside, vertical-outside,
horizontal-inside, vertical-inside]`. -/
def TableStyle.borderChars (s : TableStyle) : List Str :=
  [s.hOutside, s.vOutside, s.hInside, s.vInside]

/-- `style.crossing_chars`: the 12 crossing glyphs in the index order the
drawer uses (0 = default crossing, 1–3 = top left/mid/right, 4 =
mid-right, 5–7 = bottom right/mid/left, 8 = mid-left, 9–11 = top-bottom
left/mid/right). -/
def TableStyle.crossingChars (s : TableStyle) : List Str :=
  [s.crossingChar, s.crossTopLeft, s.crossTopMid, s.crossTopRight,
   s.crossMidRight, s.crossBottomRight, s.crossBottomMid, s.crossBottomLeft,
   s.crossMidLeft, s.crossTopLeftBottom, s.crossTopMidBottom,
   s.crossTopRightBottom]

/-- Modelled from the spec: the `default` theme, "plain ASCII
rule/pipe/plus": `-` rules, `|` pipes, `+` crossings, cell content
template `" {} "` (two columns of padding overhead), plain `{}` row/header
and border formats, space padding, left alignment. -/
def defaultStyle : TableStyle :=
  { paddingChar := ' '
    hOutside := ['-']
    hInside := ['-']
    vOutside := ['|']
    vInside := ['|']
    crossingChar := ['+']
    crossTopLeft := ['+']
    crossTopMid := ['+']
    crossTopRight := ['+']
    crossMidRight := ['+']
    crossBottomRight := ['+']
    crossBottomMid := ['+']
    crossBottomLeft := ['+']
    crossMidLeft := ['+']
    crossTopLeftBottom := ['+']
    crossTopMidBottom := ['+']
    crossTopRightBottom := ['+']
    cellHeaderFormat := "{}".toList
    cellRowFormat := "{}".toList
    cellRowContentFormat := " {} ".toList
    borderFormat := "{}".toList
    headerTitleFormat := " {} ".toList
    footerTitleFormat := " {} ".toList
    padAlign := .left }

/-- Modelled from the spec: `set_horizontal_border_chars(outside, inside)`
— the inside glyph defaults to the outside one when absent. -/
def TableStyle.setHorizontalBorderChars (s : TableStyle) (outside : Str)
    (inside : Option Str) : TableStyle :=
  { s with hOutside := outside, hInside := inside.getD outside }

/-- Modelled from the spec: `set_vertical_border_chars(outside, inside)`. -/
def TableStyle.setVerticalBorderChars (s : TableStyle) (outside : Str)
    (inside : Option Str) : TableStyle :=
  { s with vOutside := outside, vInside := inside.getD outside }

/-- Modelled from the spec: `set_default_crossing_char(c)` sets every
crossing glyph to `c`. -/
def TableStyle.setDefaultCrossingChar (s : TableStyle) (c : Str) : TableStyle :=
  { s with
    crossingChar := c
    crossTopLeft := c
    crossTopMid := c
    crossTopRight := c
    crossMidRight := c
    crossBottomRight := c
    crossBottomMid := c
    crossBottomLeft := c
    crossMidLeft := c
    crossTopLeftBottom := c
    crossTopMidBottom := c
    crossTopRightBottom := c }

/-- Modelled from the spec: `set_crossing_chars` with the full 12-glyph
table; the three top-bottom variants default to the mid-left, crossing and
mid-right glyphs when not given. -/
def TableStyle.setCrossingChars (s : TableStyle)
    (cross tl tm tr mr br bm bl ml : Str)
    (tlb tmb trb : Option Str) : TableStyle :=
  { s with
    crossingChar := cross
    crossTopLeft := tl
    crossTopMid := tm
    crossTopRight := tr
    crossMidRight := mr
    crossBottomRight := br
    crossBottomMid := bm
    crossBottomLeft := bl
    crossMidLeft := ml
    crossTopLeftBottom := tlb.getD ml
    crossTopMidBottom := tmb.getD cross
    crossTopRightBottom := trb.getD mr }

/-- Modelled from the spec: `set_cell_row_content_format`. -/
def TableStyle.setCellRowContentFormat (s : TableStyle) (f : Str) : TableStyle :=
  { s with cellRowContentFormat := f }

/-- The `borderless` registered theme (`Table._init_styles`): horizontal
`=`, vertical space, crossing space. -/
def borderlessStyle : TableStyle :=
  ((defaultStyle.setHorizontalBorderChars ['='] none).setVerticalBorderChars
    [' '] none).setDefaultCrossingChar [' ']

/-- The `compact` registered theme (`Table._init_styles`): no border
glyphs, raw `{}` cell template. -/
def compactStyle : TableStyle :=
  (((defaultStyle.setHorizontalBorderChars [] none).setVerticalBorderChars
    [' '] none).setDefaultCrossingChar []).setCellRowContentFormat "{}".toList

/-- The `box` registered theme (`Table._init_styles`): single-line
box-drawing glyph set. -/
def boxStyle : TableStyle :=
  ((defaultStyle.setHorizontalBorderChars ['─'] none).setVerticalBorderChars
    ['│'] none).setCrossingChars ['┼'] ['┌'] ['┬'] ['┐'] ['┤'] ['┘'] ['┴']
    ['└'] ['├'] none none none

/-- The `box-double` registered theme (`Table._init_styles`): double-line
outer border, single-line inner border, full 12-glyph crossing table. -/
def boxDoubleStyle : TableStyle :=
  ((defaultStyle.setHorizontalBorderChars ['═'] (some ['─'])).setVerticalBorderChars
    ['║'] (some ['│'])).setCrossingChars ['┼'] ['╔'] ['╤'] ['╗'] ['╢'] ['╝']
    ['╧'] ['╚'] ['╟'] (some ['╠']) (some ['╪']) (some ['╣'])

/-- The style registry built by `Table._init_styles`: the five built-in
named themes. -/
def styleRegistry : List (Str × TableStyle) :=
  [("default".toList, defaultStyle),
   ("borderless".toList, borderlessStyle),
   ("compact".toList, compactStyle),
   ("box".toList, boxStyle),
   ("box-double".toList, boxDoubleStyle)]

/-- Registry lookup, Python `name in cls._styles` / `cls._styles[name]`. -/
def lookupStyle (name : Str) : Option TableStyle :=
  (styleRegistry.find? (fun p => p.1 = name)).map Prod.snd

/-- The message of the configuration error raised by
`Table._resolve_style` for an unknown style name. -/
def styleErrMsg (name : Str) : Str :=
  "Table style \x22".toList ++ name ++ "\x22 is not defined.".toList

/-- `Table._resolve_style`: a `TableStyle` instance is returned unchanged;
a registered name yields (a deep copy of) the registered template; an
unknown name raises `ValueError` with a message carrying the name. -/
def resolveStyleV : Sum Str TableStyle → Except Str TableStyle
  | .inr s => .ok s
  | .inl n =>
    match lookupStyle n with
    | some s => .ok s
    | none => .error (styleErrMsg n)

/-- Insertion-ordered association lists embed Python dicts keyed by column
or row index: lookup. -/
def alGet? {α : Type} (l : List (Nat × α)) (k : Nat) : Option α :=
  (l.find? (fun p => p.1 = k)).map Prod.snd

/-- Python `d[k] if k in d else dflt` / `d.get(k, dflt)`. -/
def alGetD {α : Type} (l : List (Nat × α)) (k : Nat) (dflt : α) : α :=
  (alGet? l k).getD dflt

/-- Python `k in d`. -/
def alHasKey {α : Type} (l : List (Nat × α)) (k : Nat) : Bool :=
  (alGet? l k).isSome

/-- Python `d[k] = v`: updates an existing key in place (keeping its
position, as dicts do) or appends a new binding at the end. -/
def alSet {α : Type} : List (Nat × α) → Nat → α → List (Nat × α)
  | [], k, v => [(k, v)]
  | p :: r, k, v =>
    if p.1 = k then (k, v) :: r else p :: alSet r k v

/-- The `Table` instance state: the fields set by `Table.__init__` and
mutated by the builder methods and by `render`. -/
structure Table where
  headerTitle : Option Str
  footerTitle : Option Str
  headers : List (List PyCell)
  rows : List PyRow
  horizontal : Bool
  effectiveColumnWidths : List (Nat × Nat)
  numberOfColumns : Option Nat
  columnStyles : List (Nat × TableStyle)
  columnWidths : List (Nat × Nat)
  columnMaxWidths : List (Nat × Nat)
  rendered : Bool
  style : TableStyle
deriving DecidableEq, Repr

/-- `Table.__init__` with an already-resolved style: empty titles, headers
and rows, vertical mode, empty transient and override maps. -/
def tableNew (style : TableStyle) : Table :=
  { headerTitle := none
    footerTitle := none
    headers := []
    rows := []
    horizontal := false
    effectiveColumnWidths := []
    numberOfColumns := none
    columnStyles := []
    columnWidths := []
    columnMaxWidths := []
    rendered := false
    style := style }

/-- `Table.set_style` on an existing table (via `_resolve_style`). -/
def Table.setStyle (t : Table) (name : Sum Str TableStyle) : Except Str Table :=
  (resolveStyleV name).map (fun s => { t with style := s })

/-- `Table.column_style`: the per-column override when present, else the
table style. -/
def Table.columnStyle (t : Table) (c : Nat) : TableStyle :=
  alGetD t.columnStyles c t.style

/-- `Table.set_column_style`. -/
def Table.setColumnStyle (t : Table) (c : Nat) (s : Sum Str TableStyle) :
    Except Str Table :=
  (resolveStyleV s).map (fun st => { t with columnStyles := alSet t.columnStyles c st })

/-- `Table.set_column_width`. -/
def Table.setColumnWidth (t : Table) (c w : Nat) : Table :=
  { t with columnWidths := alSet t.columnWidths c w }

/-- `Table.set_column_widths`: replaces the width map with the enumerated
list. -/
def Table.setColumnWidths (t : Table) (ws : List Nat) : Table :=
  { t with columnWidths := ws.enum }

/-- `Table.set_column_max_width`.  NOTE: faithful to the source, which
stores the value into `self._column_widths` (the width-floor map), not
into `self._column_max_widths`. -/
def Table.setColumnMaxWidth (t : Table) (c w : Nat) : Table :=
  { t with columnWidths := alSet t.columnWidths c w }

/-- `Table.set_headers` for an already-listed list of header rows (the
single-row convenience wrapping is done by the caller of the model). -/
def Table.setHeaders (t : Table) (hs : List (List PyCell)) : Table :=
  { t with headers := hs }

/-- `Table.set_rows` (which clears and re-adds; `add_row` appends either a
separator or a row unchanged). -/
def Table.setRows (t : Table) (rs : List PyRow) : Table :=
  { t with rows := rs }

/-- `Table.add_row`. -/
def Table.addRow (t : Table) (r : PyRow) : Table :=
  { t with rows := t.rows ++ [r] }

/-- `Table.set_header_title`. -/
def Table.setHeaderTitle (t : Table) (s : Str) : Table :=
  { t with headerTitle := some s }

/-- `Table.set_footer_title`. -/
def Table.setFooterTitle (t : Table) (s : Str) : Table :=
  { t with footerTitle := some s }

/-- `Table.horizontal`. -/
def Table.setHorizontal (t : Table) (b : Bool) : Table :=
  { t with horizontal := b }

/-- The errors render can raise: Python `TypeError` from operations on
`None` (horizontal-mode filler cells), and the `TypeError` raised by the
single-argument `str.replace` call in `_render_cell`. -/
inductive PyErr
  | noneTypeErr
  | replaceArgErr
deriving DecidableEq, Repr

/-- Provenance tag for a working row during `render`: Python aliasing means
an in-place mutation of a working row is visible through `self._headers[i]`
or `self._rows[j]`; rows synthesised during normalization are fresh
objects. -/
inductive RTag
  | hdr (i : Nat)
  | body (i : Nat)
  | fresh
deriving DecidableEq, Repr

/-- A working row of `render`: its provenance tag, whether it is the
`divider` object created at the top of `render` (compared by identity with
`row is divider`), and its value. -/
structure ARow where
  tag : RTag
  isDiv : Bool
  row : PyRow
deriving DecidableEq, Repr

/-- Default `ARow` used for out-of-range list reads that Python could not
reach. -/
def arDefault : ARow := ⟨.fresh, false, .sep⟩

/-- Tags the header rows with their index in `self._headers`. -/
def tagHeaders : Nat → List (List PyCell) → List ARow
  | _, [] => []
  | i, h :: r => ⟨.hdr i, false, .cells h⟩ :: tagHeaders (i + 1) r

/-- Tags the body rows with their index in `self._rows`. -/
def tagBody : Nat → List PyRow → List ARow
  | _, [] => []
  | j, r :: rs => ⟨.body j, false, r⟩ :: tagBody (j + 1) rs

/-- One transposed row of horizontal mode: starts with the `i`-th header,
then for each non-separator body row appends its `i`-th cell, or `None`
when the row is too short — unless the leading cell is a `TableCell` with
colspan ≥ 2 (a title), which suppresses appending. -/
def hRowFor (i : Nat) (hc : PyCell) (bodyRows : List PyRow) : List PyCell :=
  hc :: bodyRows.foldl
    (fun acc r =>
      match r with
      | .sep => acc
      | .cells cs =>
        if i < cs.length then acc ++ [cs.getD i .pynone]
        else
          match hc with
          | .cell _ csp _ _ => if csp ≥ 2 then acc else acc ++ [.pynone]
          | _ => acc ++ [.pynone])
    []

/-- The raw working-row list `render` starts from: in horizontal mode the
transposed construction (all rows fresh), otherwise
`self._headers + [divider] + self._rows` (header and body rows aliased to
the table's stored lists). -/
def assemble (t : Table) : List ARow :=
  if t.horizontal then
    (t.headers.headD []).enum.map
      (fun p => ⟨.fresh, false, .cells (hRowFor p.1 p.2 t.rows)⟩)
  else
    tagHeaders 0 t.headers ++ [⟨.fresh, true, .sep⟩] ++ tagBody 0 t.rows

/-- `Table._get_number_of_columns`: the row length plus `colspan − 1` for
every `TableCell`. -/
def getNumberOfColumns (cs : List PyCell) : Nat :=
  cs.foldl (fun acc c => acc + (c.colspanOf - 1)) cs.length

/-- `Table._calculate_number_of_columns`: the maximum of 0 and the column
counts of all non-separator rows. -/
def calcNumberOfColumns (rows : List ARow) : Nat :=
  rows.foldl
    (fun acc ar =>
      match ar.row with
      | .sep => acc
      | .cells cs => max acc (getNumberOfColumns cs))
    0

/-- The markup injected around the line breaks of a multi-line cell,
`"<fg=default;bg=default>\n</>"`. -/
def nlMarker : Str := "<fg=default;bg=default>\n</>".toList

/-- `Table._copy_row`: a blank copy of a row — every entry becomes `""`,
except `TableCell`s (separator cells included) which become
`TableCell("", colspan=entry.colspan)`. -/
def copyRowCells : PyRow → List PyCell
  | .sep => []
  | .cells cs =>
    cs.map fun c =>
      if c.isTableCell then PyCell.cell [] c.colspanOf 1 none else PyCell.plain []

/-- Python `list.insert(k, v)`: inserts before position `k`, appending when
`k` is past the end. -/
def pyInsertIdx {α : Type} : List α → Nat → α → List α
  | l, 0, v => v :: l
  | [], _ + 1, v => [v]
  | c :: r, k + 1, v => c :: pyInsertIdx r k v

/-- Updates the value bound to key `k` of an association list in place. -/
def alMapAt {α : Type} (l : List (Nat × α)) (k : Nat) (f : α → α) :
    List (Nat × α) :=
  l.map fun p => if p.1 = k then (p.1, f p.2) else p

/-- `_fill_next_rows`, placeholder merge: the freshly-built placeholder
(one empty inner dict per spanned row index) absorbs the previous unmerged
map — bindings for indices inside the placeholder merge into its inner
dicts, others append behind. -/
def fnrMerge (placeholder old : List (Nat × List (Nat × PyCell))) :
    List (Nat × List (Nat × PyCell)) :=
  old.foldl
    (fun ph kv =>
      if alHasKey ph kv.1 then
        alMapAt ph kv.1 (fun inner => kv.2.foldl (fun inn lm => alSet inn lm.1 lm.2) inner)
      else ph ++ [kv])
    placeholder

/-- `_fill_next_rows`, fragment-assignment loop: walks the unmerged map in
insertion order, binds this column's synthesized `TableCell` (the matching
text fragment, or `""` past the fragment list) into each spanned row, and
breaks after the row at distance `nbLines`. -/
def fnrAssign (line col cspan : Nat) (sty : Option TableCellStyle)
    (linesVals : List Str) (nbLines : Nat) :
    List (Nat × List (Nat × PyCell)) → List (Nat × List (Nat × PyCell))
  | [] => []
  | (k, inner) :: rest =>
    let value := if k - line < linesVals.length then linesVals.getD (k - line) [] else []
    let inner2 := alSet inner col (.cell value cspan 1 sty)
    if nbLines = k - line then (k, inner2) :: rest
    else (k, inner2) :: fnrAssign line col cspan sty linesVals nbLines rest

/-- `_fill_next_rows`, per-column step: a `TableCell` with rowspan > 1 has
its spanned rows recorded in the unmerged map; if its text holds line
breaks the cell itself is replaced by its first fragment (markup injected,
rowspan dropped, style kept) and the effective span extends to the
fragment count when that is larger. -/
def fnrScanStep (line : Nat) (st : List PyCell × List (Nat × List (Nat × PyCell)))
    (col : Nat) : List PyCell × List (Nat × List (Nat × PyCell)) :=
  let row := st.1
  let um := st.2
  match row.getD col .pynone with
  | .cell text cspan rspan sty =>
    if rspan > 1 then
      let nb0 := rspan - 1
      let hasNl := hasChar text '\n'
      let frags := splitOnNl (replaceNl nlMarker text)
      let nbLines := if hasNl then (if nb0 < frags.length then countNl text else nb0) else nb0
      let linesVals := if hasNl then frags else [text]
      let row2 := if hasNl then row.set col (.cell (frags.getD 0 []) cspan 1 sty) else row
      let ph := (List.range nbLines).map (fun j => (line + 1 + j, ([] : List (Nat × PyCell))))
      let um2 := fnrMerge ph um
      (row2, fnrAssign line col cspan sty linesVals nbLines um2)
    else (row, um)
  | _ => (row, um)

/-- `_fill_next_rows`, insertion phase, one unmerged row: merged in place
into the existing row at its index when that row is a list and the
combined column count stays within `number_of_columns`; otherwise a blank
copy of the row above is overlaid with the non-empty synthesized cells and
inserted at the index. -/
def fnrInsertStep (ncols : Nat) (rows : List ARow)
    (kv : Nat × List (Nat × PyCell)) : List ARow :=
  let k := kv.1
  let inner := kv.2
  let ar := rows.getD k arDefault
  let doInsert : List ARow :=
    let base := copyRowCells (rows.getD (k - 1) arDefault).row
    let row2 := inner.foldl
      (fun r p => if (p.2.textOf).length ≠ 0 then r.set p.1 p.2 else r) base
    pyInsertIdx rows k ⟨.fresh, false, .cells row2⟩
  match ar.row with
  | .cells rk =>
    if k < rows.length ∧
        getNumberOfColumns rk + getNumberOfColumns (inner.map Prod.snd) ≤ ncols then
      rows.set k { ar with row := .cells (inner.foldl (fun r p => pyInsertIdx r p.1 p.2) rk) }
    else doInsert
  | .sep => doInsert

/-- `Table._fill_next_rows`: expands every rowspan > 1 cell of the row at
index `line` into the rows below it. -/
def fillNextRows (ncols : Nat) (rows : List ARow) (line : Nat) : List ARow :=
  let ar := rows.getD line arDefault
  match ar.row with
  | .sep => rows
  | .cells cs =>
    let scanned := (List.range cs.length).foldl (fnrScanStep line) (cs, [])
    let rows2 := rows.set line { ar with row := .cells scanned.1 }
    scanned.2.foldl (fnrInsertStep ncols) rows2

/-- `_build_table_rows`, line-fragment loop over the split pieces of one
multi-line cell: the first fragment replaces the cell in place; each later
fragment goes into a blank sibling row (copied on first use) keyed by its
fragment index. -/
def prLines (col colspan : Nat) :
    Nat → List Str → List PyCell → List (Nat × List PyCell) →
    List PyCell × List (Nat × List PyCell)
  | _, [], row, frags => (row, frags)
  | lk, ln :: rest, row, frags =>
    let lineCell := if colspan > 1 then PyCell.cell ln colspan 1 none else PyCell.plain ln
    if lk = 0 then prLines col colspan 1 rest (row.set col lineCell) frags
    else
      let fragRow := (alGet? frags lk).getD (copyRowCells (.cells row))
      prLines col colspan (lk + 1) rest row (alSet frags lk (fragRow.set col lineCell))

/-- `_build_table_rows`, per-cell step of the per-row loop: apply the
max-width wrap when configured and exceeded (the wrap result is a plain
string), then split on line breaks, escaping trailing backslashes at the
split boundaries and injecting the reset markup around each break.
Operations Python would raise `TypeError` on (`None` cells) are errors. -/
def prCellStep (mws : List (Nat × Nat)) (st : List PyCell × List (Nat × List PyCell))
    (col : Nat) : Except PyErr (List PyCell × List (Nat × List PyCell)) := do
  let row := st.1
  let frags := st.2
  let cell0 := row.getD col .pynone
  let colspan := cell0.colspanOf
  let cellW ←
    match alGet? mws col with
    | some m =>
      match cell0 with
      | .pynone => Except.error PyErr.noneTypeErr
      | _ =>
        if m < (removeFormat cell0.textOf).length then
          pure (PyCell.plain (formatAndWrap cell0.textOf (m * colspan)))
        else pure cell0
    | none => pure cell0
  match cellW with
  | .pynone => Except.error PyErr.noneTypeErr
  | _ =>
    if hasChar cellW.textOf '\n' = false then pure (row, frags)
    else
      let escaped := joinNl ((splitOnNl cellW.textOf).map escapeTrailingBackslash)
      let cellE := if cellW.isTableCell then PyCell.cell escaped cellW.colspanOf 1 none
                   else PyCell.plain escaped
      let lines := splitOnNl (replaceNl nlMarker cellE.textOf)
      pure (prLines col colspan 0 lines row frags)

/-- `_build_table_rows`, the per-row loop over the columns of one row. -/
def processRow (mws : List (Nat × Nat)) (cs : List PyCell) :
    Except PyErr (List PyCell × List (Nat × List PyCell)) :=
  (List.range cs.length).foldlM (prCellStep mws) (cs, [])

/-- The `while row_key < len(rows)` loop of `_build_table_rows`: each
iteration first expands rowspans (`_fill_next_rows`, which may insert rows
below the current one), then splits the current row's multi-line cells,
collecting sibling fragment rows in the unmerged map.  The fuel is a
structural bound on the iteration count (the list grows by bounded
insertions only). -/
def buildLoop (mws : List (Nat × Nat)) (ncols : Nat) :
    Nat → List ARow → List (Nat × List (List PyCell)) → Nat →
    Except PyErr (List ARow × List (Nat × List (List PyCell)))
  | 0, rows, um, _ => .ok (rows, um)
  | f + 1, rows, um, k =>
    if k < rows.length then
      let rows1 := fillNextRows ncols rows k
      let ar := rows1.getD k arDefault
      match ar.row with
      | .sep => buildLoop mws ncols f rows1 um (k + 1)
      | .cells cs => do
        let pr ← processRow mws cs
        let rows2 := rows1.set k { ar with row := .cells pr.1 }
        let um2 := if pr.2.isEmpty then um else alSet um k (pr.2.map Prod.snd)
        buildLoop mws ncols f rows2 um2 (k + 1)
    else .ok (rows, um)

/-- Fuel bound for `buildLoop`: row count plus the total rowspan and
line-break budget of every cell (insertions during the loop are bounded by
the rowspans and fragment counts of the original cells). -/
def rowFuel : PyRow → Nat
  | .sep => 0
  | .cells cs => cs.foldl (fun a c => a + c.rowspanOf + countNl c.textOf) 0

/-- Total fuel for `buildLoop` on a working-row list. -/
def buildFuel (rows : List ARow) : Nat :=
  rows.length + 1 + rows.foldl (fun a ar => a + rowFuel ar.row) 0

/-- `Table._fill_cells` on the cell list of a row: after each `TableCell`
with colspan > 1, `colspan − 1` empty-string filler cells are appended at
the columns it spans. -/
def fillCellsList : List PyCell → List PyCell
  | [] => []
  | c :: r => c :: (List.replicate (c.colspanOf - 1) (PyCell.plain []) ++ fillCellsList r)

/-- `Table._fill_cells` (separator rows pass through unchanged). -/
def fillCellsRow : PyRow → PyRow
  | .sep => .sep
  | .cells cs => .cells (fillCellsList cs)

/-- The yield phase of `_build_table_rows`: each row (filled) followed by
its sibling fragment rows (filled), in fragment order.  The Bool marks the
`divider` identity for the drawer. -/
def buildYield (rows : List ARow) (um : List (Nat × List (List PyCell))) :
    List (Bool × PyRow) :=
  rows.enum.flatMap fun p =>
    (p.2.isDiv, fillCellsRow p.2.row) ::
      ((alGetD um p.1 []).map fun fr => (false, fillCellsRow (.cells fr)))

/-- `Table._build_table_rows`: the full normalization pass, returning both
the normalized rows the drawer consumes and the final working-row list
(through which the in-place mutations of stored rows are observed). -/
def buildTableRows (t : Table) (ncols : Nat) (rows0 : List ARow) :
    Except PyErr (List (Bool × PyRow) × List ARow) := do
  let r ← buildLoop t.columnMaxWidths ncols (buildFuel rows0) rows0 [] 0
  pure (buildYield r.1 r.2, r.1)

/-- Python `row_[i] = v` with the `except IndexError: row_.append(v)`
fallback of `_calculate_column_widths`. -/
def pySetOrAppend {α : Type} (l : List α) (k : Nat) (v : α) : List α :=
  if k < l.length then l.set k v else l ++ [v]

/-- Fuel bound for `chunkLoop`: the original length plus the total colspan
budget (each `TableCell` appends fewer than `colspan` chunk entries, and
appended plain strings are not expanded further). -/
def chunkFuel (cs : List PyCell) : Nat :=
  cs.length + 1 + cs.foldl (fun a c => a + c.colspanOf) 0

/-- The live-enumeration loop of `_calculate_column_widths` over one row
copy: every `TableCell` has its stripped text chunked into `colspan`
contiguous pieces of length `ceil(len/colspan)` which overwrite (or
append at) the columns it spans; the enumeration continues over the
mutated list, so overwritten or appended plain strings are skipped. -/
def chunkLoop : Nat → List PyCell → Nat → List PyCell
  | 0, row, _ => row
  | f + 1, row, i =>
    if i < row.length then
      let row2 :=
        match row.getD i .pynone with
        | .cell text csp _ _ =>
          let tc := removeFormat text
          if tc.length ≠ 0 then
            let piece := (tc.length + csp - 1) / csp
            (chopEvery piece tc).enum.foldl
              (fun r p => pySetOrAppend r (i + p.1) (PyCell.plain p.2)) row
          else row
        | _ => row
      chunkLoop f row2 (i + 1)
    else row

/-- The `row_` transform of `_calculate_column_widths` for one row. -/
def chunkRow (cs : List PyCell) : List PyCell :=
  chunkLoop (chunkFuel cs) cs 0

/-- `Table._get_cell_width`: the stripped display width of the cell at the
column (0 when the row is too short), raised to the configured per-column
width floor, then capped by the configured per-column max width. -/
def getCellWidth (cws mws : List (Nat × Nat)) (row : List PyCell) (c : Nat) : Nat :=
  let cellWidth :=
    match row.get? c with
    | some cell => (removeFormat cell.textOf).length
    | none => 0
  let cellWidth := max cellWidth (alGetD cws c 0)
  match alGet? mws c with
  | some m => min m cellWidth
  | none => cellWidth

/-- The measured-widths maximum for one column of `_calculate_column_widths`
(Python `max(lengths)` where `lengths` starts `[0]`); `cws` and `mws` are
the table's `_column_widths` and `_column_max_widths` maps. -/
def colWidthVal (cws mws : List (Nat × Nat)) (norm : List (Bool × PyRow))
    (c : Nat) : Nat :=
  (norm.filterMap
    (fun p =>
      match p.2 with
      | .sep => none
      | .cells cs => some (getCellWidth cws mws (chunkRow cs) c))).foldl
    max 0

/-- The column loop of `_calculate_column_widths`, assigning each column's
effective width (measured maximum plus the cell-content template length
minus 2) into the effective-width map. -/
def calcAux (cws mws : List (Nat × Nat)) (tpl : Str)
    (norm : List (Bool × PyRow)) :
    List (Nat × Nat) → List Nat → List (Nat × Nat)
  | eff, [] => eff
  | eff, c :: cs =>
    calcAux cws mws tpl norm
      (alSet eff c (colWidthVal cws mws norm c + tpl.length - 2)) cs

/-- `Table._calculate_column_widths` (the subtraction is on `Nat`; every
named style's content template has length at least 2, matching Python's
integer arithmetic there). -/
def calcColumnWidths (t : Table) (ncols : Nat) (norm : List (Bool × PyRow)) :
    List (Nat × Nat) :=
  calcAux t.columnWidths t.columnMaxWidths t.style.cellRowContentFormat norm
    t.effectiveColumnWidths (List.range ncols)

/-- `Table._get_column_separator_width`. -/
def getColumnSeparatorWidth (t : Table) : Nat :=
  (formatTpl t.style.borderFormat t.style.vInside).length

/-- `Table._get_row_columns`: all column indices except those grouped away
by a colspan > 1 cell. -/
def getRowColumns (ncols : Nat) (cs : List PyCell) : List Nat :=
  cs.enum.foldl
    (fun cols p =>
      if p.2.isTableCell && p.2.colspanOf > 1 then
        cols.filter (fun x => !(decide (p.1 + 1 ≤ x) && decide (x < p.1 + p.2.colspanOf)))
      else cols)
    (List.range ncols)

/-- `Table._render_column_separator`. -/
def renderColumnSeparator (t : Table) (outside : Bool) : Str :=
  formatTpl t.style.borderFormat (if outside then t.style.vOutside else t.style.vInside)

/-- Word characters for the styled-by-tag regex (`\w`, ASCII; the markup
tags the formatter produces are ASCII). -/
def isWordChar (c : Char) : Bool :=
  c.isAlphanum || c = '_'

/-- All `(prefix-part, suffix-part)` decompositions of a string, used to
decide the regex of `_render_cell` by exhaustive search. -/
def splitsOf (s : Str) : List (Str × Str) :=
  (List.range (s.length + 1)).map (fun i => (s.take i, s.drop i))

/-- `\w+` matched against a whole string. -/
def isWordStr (s : Str) : Bool :=
  !s.isEmpty && s.all isWordChar

/-- `[\w,]+` (or `\w+` when commas are not allowed) matched against a
whole string. -/
def isValStr (comma : Bool) (s : Str) : Bool :=
  !s.isEmpty && s.all (fun c => isWordChar c || (comma && c = ','))

/-- One `\w+=[\w,]+;?` group matched against a whole string. -/
def isKvGroup (comma : Bool) (g : Str) : Bool :=
  (splitsOf g).any fun p =>
    match p.2 with
    | '=' :: v =>
      isWordStr p.1 &&
        (isValStr comma v ||
          (v.getLast? = some ';' && isValStr comma v.dropLast))
    | _ => false

/-- `(\w+=[\w,]+;?)*` matched against a whole string (fuel: the string
length, each group consumes at least one character). -/
def isKvStar (comma : Bool) : Nat → Str → Bool
  | _, [] => true
  | 0, _ => false
  | f + 1, s =>
    (splitsOf s).any fun p =>
      !p.1.isEmpty && isKvGroup comma p.1 && isKvStar comma f p.2

/-- The open-tag body alternation `(\w+|(\w+=[\w,]+;?)*)`. -/
def openBody (a : Str) : Bool :=
  isWordStr a || isKvStar true a.length a

/-- The close-tag body alternation `(\w+|(\w+=\w+;?)*)?`. -/
def closeBody (b : Str) : Bool :=
  b.isEmpty || isWordStr b || isKvStar false b.length b

/-- `re.match(r"^<(\w+|(\w+=[\w,]+;?)*)>.+</(\w+|(\w+=\w+;?)*)?>$", s)` as
a Boolean: the string is exactly an open tag, one or more non-newline
characters, and a close tag (`$` admits one trailing newline). -/
def tagMatch (s : Str) : Bool :=
  match s with
  | '<' :: r =>
    (splitsOf r).any fun p =>
      openBody p.1 &&
        (match p.2 with
         | '>' :: rest =>
           (splitsOf rest).any fun q =>
             !q.1.isEmpty && !(hasChar q.1 '\n') &&
               (match q.2 with
                | '<' :: '/' :: r2 =>
                  (splitsOf r2).any fun w =>
                    closeBody w.1 &&
                      (match w.2 with
                       | ['>'] => true
                       | ['>', '\n'] => true
                       | _ => false)
                | _ => false)
         | _ => false)
  | _ => false

/-- `Table._render_cell`: a missing cell renders as empty text; a colspan
cell's width adds the spanned columns and separators; a separator cell
renders as a horizontal rule; a cell carrying a `TableCellStyle` and not
already wrapped in an explicit markup tag substitutes the override format
— and, faithful to the source, hits the single-argument `str.replace`
`TypeError` whenever its content still holds the
`<fg=default;bg=default>` reset marker. -/
def renderCell (t : Table) (eff : List (Nat × Nat)) (row : List PyCell)
    (column : Nat) (cellFormat : Str) : Except PyErr Str :=
  let cell := row.getD column (.plain [])
  let width0 := alGetD eff column 0
  let width1 :=
    match cell with
    | .cell _ csp _ _ =>
      if csp > 1 then
        (List.range (csp - 1)).foldl
          (fun w j => w + getColumnSeparatorWidth t + alGetD eff (column + 1 + j) 0)
          width0
      else width0
    | _ => width0
  let style := t.columnStyle column
  match cell with
  | .sepcell => .ok (formatTpl style.borderFormat (strRepeat style.hInside width1))
  | .pynone => .error PyErr.noneTypeErr
  | _ =>
    let width2 := width1 + (cell.textOf.length - (removeFormat cell.textOf).length)
    let content := formatTpl style.cellRowContentFormat cell.textOf
    match cell.styleOf with
    | some cs =>
      if tagMatch cell.textOf = false then
        let cellFormat2 :=
          match cs.cellFormat with
          | some f => f
          | none => '<' :: (cs.tag ++ ('>' :: "{}</>".toList))
        let adj :=
          if substrIn "</>".toList content then
            (replaceAllStr "</>".toList [] content, width2 - 3)
          else (content, width2)
        if substrIn "<fg=default;bg=default>".toList adj.1 then
          .error PyErr.replaceArgErr
        else
          .ok (formatTpl cellFormat2 (padApply cs.padAlign adj.1 adj.2 style.paddingChar))
      else
        .ok (formatTpl cellFormat (padApply cs.padAlign content width2 style.paddingChar))
    | none =>
      .ok (formatTpl cellFormat (padApply style.padAlign content width2 style.paddingChar))

/-- `Table._render_row`: the outer separator, then each logical column's
cell followed by its separator (outer at the row end, inner between
cells); in horizontal mode the first cell uses the header format. -/
def renderRow (t : Table) (eff : List (Nat × Nat)) (ncols : Nat)
    (cs : List PyCell) (cellFormat : Str) (firstCellFormat : Option Str) :
    Except PyErr Str := do
  let cols := getRowColumns ncols cs
  let last := cols.length - 1
  cols.enum.foldlM
    (fun acc p => do
      let fmt :=
        match firstCellFormat with
        | some f => if p.1 = 0 then f else cellFormat
        | none => cellFormat
      let cellS ← renderCell t eff cs p.2 fmt
      pure (acc ++ cellS ++ renderColumnSeparator t (p.1 = last)))
    (renderColumnSeparator t true)

/-- The four separator kinds of the drawer. -/
inductive SepType
  | top
  | topBottom
  | mid
  | bottom
deriving DecidableEq, Repr

/-- `Table._render_row_separator` as the sequence of lines it writes:
empty when the table has no columns, or when the style defines neither
horizontal border glyphs nor a crossing glyph; otherwise the single rule
line of the requested kind, optionally carrying a centered (and
ellipsis-truncated) title. -/
def renderRowSeparatorLines (t : Table) (eff : List (Nat × Nat)) (ncols : Nat)
    (ty : SepType) (title : Option Str) (titleFormat : Str) : List Str :=
  if ncols = 0 then []
  else if t.style.hOutside.isEmpty && t.style.hInside.isEmpty &&
      t.style.crossingChar.isEmpty then []
  else
    let g :=
      match ty with
      | .mid => (t.style.hInside, t.style.crossMidLeft, t.style.crossingChar,
                 t.style.crossMidRight)
      | .top => (t.style.hOutside, t.style.crossTopLeft, t.style.crossTopMid,
                 t.style.crossTopRight)
      | .topBottom => (t.style.hOutside, t.style.crossTopLeftBottom,
                       t.style.crossTopMidBottom, t.style.crossTopRightBottom)
      | .bottom => (t.style.hOutside, t.style.crossBottomLeft,
                    t.style.crossBottomMid, t.style.crossBottomRight)
    let markup :=
      (List.range ncols).foldl
        (fun m c =>
          m ++ strRepeat g.1 (alGetD eff c 0) ++
            (if c = ncols - 1 then g.2.2.2 else g.2.2.1))
        g.2.1
    let markup2 :=
      match title with
      | none => markup
      | some ti =>
        let ft := formatTpl titleFormat ti
        let tl := (removeFormat ft).length
        let ml := markup.length
        let limit := ml - 4
        let adj :=
          if limit < tl then
            let fl := (removeFormat (formatTpl titleFormat [])).length
            (formatTpl titleFormat (ti.take (limit - fl - 3) ++ "...".toList), limit)
          else (ft, tl)
        let st := (ml - adj.2) / 2
        markup.take st ++ adj.1 ++ markup.drop (st + adj.2)
    [formatTpl t.style.borderFormat markup2]

/-- One step of the drawing loop of `render`: the divider flips the
header flag and arms the first-row separator; separator rows draw a MID
rule; empty rows are skipped; a content row is preceded by the
TOP_BOTTOM rule (first content row) or the TOP rule with the header
title (header rows), and then drawn. -/
def drawStep (t : Table) (eff : List (Nat × Nat)) (ncols : Nat)
    (st : Bool × Bool × List Str) (p : Bool × PyRow) :
    Except PyErr (Bool × Bool × List Str) :=
  let isHeader := st.1
  let isFirstRow := st.2.1
  let lines := st.2.2
  if p.1 then pure (false, true, lines)
  else
    match p.2 with
    | .sep => pure (isHeader, isFirstRow, lines ++ renderRowSeparatorLines t eff ncols .mid none [])
    | .cells [] => pure (isHeader, isFirstRow, lines)
    | .cells cs => do
      let pre :=
        if isHeader || isFirstRow then
          (if isFirstRow then renderRowSeparatorLines t eff ncols .topBottom none []
           else renderRowSeparatorLines t eff ncols .top t.headerTitle
             t.style.headerTitleFormat)
        else []
      let isFirstRow2 := if (isHeader || isFirstRow) && isFirstRow then false else isFirstRow
      let line ←
        if t.horizontal then
          renderRow t eff ncols cs t.style.cellRowFormat (some t.style.cellHeaderFormat)
        else
          renderRow t eff ncols cs
            (if isHeader then t.style.cellHeaderFormat else t.style.cellRowFormat) none
      pure (isHeader, isFirstRow2, lines ++ pre ++ [line])

/-- The drawing phase of `render`: the row loop followed by the final
BOTTOM separator with the footer title. -/
def drawAll (t : Table) (eff : List (Nat × Nat)) (ncols : Nat)
    (norm : List (Bool × PyRow)) : Except PyErr (List Str) := do
  let st ← norm.foldlM (drawStep t eff ncols) (!t.horizontal, t.horizontal, ([] : List Str))
  pure (st.2.2 ++
    renderRowSeparatorLines t eff ncols .bottom t.footerTitle t.style.footerTitleFormat)

/-- Finds the working row carrying a provenance tag. -/
def findTagRow (tg : RTag) : List ARow → Option PyRow
  | [] => none
  | ar :: rest => if ar.tag = tg then some ar.row else findTagRow tg rest

/-- The stored header rows after `render`: each header list reflects the
in-place mutations applied to the aliased working row. -/
def extractHeaders (t : Table) (final : List ARow) : List (List PyCell) :=
  t.headers.enum.map fun p =>
    match findTagRow (.hdr p.1) final with
    | some (.cells cs) => cs
    | _ => p.2

/-- The stored body rows after `render`. -/
def extractRows (t : Table) (final : List ARow) : List PyRow :=
  t.rows.enum.map fun p => (findTagRow (.body p.1) final).getD p.2

/-- `Table.render`: assembles the working rows, computes the column count,
normalizes, resolves widths, draws, and returns the written lines together
with the post-render table state (`_cleanup` clears `_column_widths` and
`_number_of_columns`; the stored rows reflect in-place mutations; the
effective-width map keeps its final value). -/
def render (t : Table) : Except PyErr (List Str × Table) := do
  let rows0 := assemble t
  let ncols := calcNumberOfColumns rows0
  let b ← buildTableRows t ncols rows0
  let eff := calcColumnWidths t ncols b.1
  let out ← drawAll t eff ncols b.1
  pure (out,
    { t with
      headers := extractHeaders t b.2
      rows := extractRows t b.2
      effectiveColumnWidths := eff
      numberOfColumns := none
      columnWidths := []
      rendered := true })

/-!
Object-identity model for the copy-on-resolve policy of the style
registry.  Python's `deepcopy(cls._styles[name])` hands each table a fresh
style object; the heap maps addresses to style values, the registry
templates live at the low addresses, and resolving a name allocates the
next free address with a copy of the template's current value.  Mutating
a style means writing through its address.
-/

/-- The heap of live `TableStyle` objects: the next free address and the
contents of every address. -/
structure StyleHeap where
  next : Nat
  mem : Nat → TableStyle

/-- The initial heap after `_init_styles`: the five registry templates at
addresses `0..4`, nothing else allocated. -/
def initHeap : StyleHeap :=
  { next := styleRegistry.length
    mem := fun a => ((styleRegistry.getD a ([], defaultStyle))).2 }

/-- The heap address of a registered template. -/
def registryAddr? (n : Str) : Option Nat :=
  styleRegistry.findIdx? (fun p => p.1 = n)

/-- `Table._resolve_style` over the heap: a style object (address) is
returned unchanged — the caller keeps ownership of the very same object; a
registered name allocates a fresh address holding a copy of the template's
value; an unknown name raises with the name in the message. -/
def resolveStyleH (h : StyleHeap) : Sum Nat Str → Except Str (StyleHeap × Nat)
  | .inl a => .ok (h, a)
  | .inr n =>
    match registryAddr? n with
    | some i =>
      .ok ({ next := h.next + 1
             mem := fun a => if a = h.next then h.mem i else h.mem a }, h.next)
    | none => .error (styleErrMsg n)

/-- Mutation of a style object: a write through its heap address. -/
def writeStyle (h : StyleHeap) (a : Nat) (s : TableStyle) : StyleHeap :=
  { h with mem := fun x => if x = a then s else h.mem x }

/-!  Proof-support definitions (referenced by theorem statements). -/

/-- Whether `_render_row_separator` draws anything for this style: false
exactly when the outside and inside horizontal glyphs and the crossing
glyph are all empty. -/
def styleDrawsRules (s : TableStyle) : Bool :=
  !(s.hOutside.isEmpty && s.hInside.isEmpty && s.crossingChar.isEmpty)

/-- The column count `render` computes for a table. -/
def ncolsOf (t : Table) : Nat :=
  calcNumberOfColumns (assemble t)

/-- The effective-width map `render` computes for a table (meaningful on
the success path of normalization). -/
def renderEff (t : Table) : List (Nat × Nat) :=
  match buildTableRows t (ncolsOf t) (assemble t) with
  | .ok b => calcColumnWidths t (ncolsOf t) b.1
  | .error _ => []

/-- The BOTTOM separator emission of `render` (the final
`_render_row_separator(SEPARATOR_BOTTOM, footer_title, ...)` call): the
list of lines it writes. -/
def bottomSeparatorLines (t : Table) : List Str :=
  renderRowSeparatorLines t (renderEff t) (ncolsOf t) .bottom t.footerTitle
    t.style.footerTitleFormat

/-- The first line fragment a multi-line cell is replaced by during
normalization: split pieces are trailing-backslash-escaped and re-joined,
the reset markup is injected around each line break, and the first piece
of the final split keeps the cell's colspan (as a `TableCell` when the
colspan exceeds 1) while dropping rowspan and style. -/
def firstFragCell (c : PyCell) : PyCell :=
  let colspan := c.colspanOf
  let escaped := joinNl ((splitOnNl c.textOf).map escapeTrailingBackslash)
  let l0 := (splitOnNl (replaceNl nlMarker escaped)).headD []
  if colspan > 1 then .cell l0 colspan 1 none else .plain l0

/-- The in-place effect of the line-break split of `_build_table_rows` on
one cell: a cell whose text holds a line break is replaced by its first
fragment; any other cell is untouched. -/
def transformCell (c : PyCell) : PyCell :=
  if hasChar c.textOf '\n' then firstFragCell c else c

/-- Lifts a cell-list transform to rows (separators pass through). -/
def rowMapG (g : List PyCell → List PyCell) : PyRow → PyRow
  | .sep => .sep
  | .cells cs => .cells (g cs)

/-- Lifts a cell-list transform to tagged working rows. -/
def aMapG (g : List PyCell → List PyCell) (ar : ARow) : ARow :=
  { ar with row := rowMapG g ar.row }

/-- A cell the drawer can always render: no per-cell style override and
not Python `None`. -/
def sfCell (c : PyCell) : Bool :=
  c.styleOf.isNone && !(c = .pynone : Bool)

/-- Row-level version of `sfCell`. -/
def sfRow : PyRow → Bool
  | .sep => true
  | .cells cs => cs.all sfCell

/-- A cell whose row normalization never inserts or merges rows: rowspan
at most 1, no per-cell style, not `None` (line breaks are allowed). -/
def cellMutClean (c : PyCell) : Bool :=
  c.rowspanOf ≤ 1 && sfCell c

/-- Row-level version of `cellMutClean`. -/
def rowMutClean : PyRow → Bool
  | .sep => true
  | .cells cs => cs.all cellMutClean

/-- Working-row-level version of `cellMutClean`. -/
def aRowMutClean (ar : ARow) : Bool :=
  rowMutClean ar.row

/-- A cell `render` leaves byte-identical: `cellMutClean` and free of line
breaks. -/
def cellClean (c : PyCell) : Bool :=
  cellMutClean c && !hasChar c.textOf '\n'

/-- Row-level version of `cellClean`. -/
def rowClean : PyRow → Bool
  | .sep => true
  | .cells cs => cs.all cellClean

/-- Working-row-level version of `cellClean`. -/
def aRowClean (ar : ARow) : Bool :=
  rowClean ar.row

/-- No line break anywhere in a working row. -/
def aRowNoNl (ar : ARow) : Bool :=
  match ar.row with
  | .sep => true
  | .cells cs => cs.all (fun c => !hasChar c.textOf '\n')

/-- Every cell of a table (headers and rows) satisfies `cellClean`. -/
def tableClean (t : Table) : Bool :=
  t.headers.all (fun h => h.all cellClean) && t.rows.all rowClean

/-- Every fragment row of an unmerged map is drawables-only. -/
def umStyleFree (um : List (Nat × List (List PyCell))) : Bool :=
  um.all (fun p => p.2.all (fun fr => fr.all sfCell))

/-- Every sibling fragment row collected while processing one row is
drawables-only. -/
def fragsSF (l : List (Nat × List PyCell)) : Bool :=
  l.all (fun p => p.2.all sfCell)

/-- Every cell of a table (headers and rows) satisfies `cellMutClean`
(line breaks allowed). -/
def tableMutClean (t : Table) : Bool :=
  t.headers.all (fun h => h.all cellMutClean) && t.rows.all rowMutClean

/-- Applies an optional max-width ceiling (`min(max_width, width)` when
configured, the width itself otherwise). -/
def optMin : Option Nat → Nat → Nat
  | some m, w => min m w
  | none, w => w

/-- The raw measured display width the width resolver reads for one row at
one column: the stripped length of the chunked row's entry there, 0 when
the row is too short. -/
def rawCellMeasure (row : List PyCell) (c : Nat) : Nat :=
  match row.get? c with
  | some cell => (removeFormat cell.textOf).length
  | none => 0

/-- The per-row measured display widths of one column over the normalized
rows (separators skipped). -/
def measuredWidths (norm : List (Bool × PyRow)) (c : Nat) : List Nat :=
  norm.filterMap fun p =>
    match p.2 with
    | .sep => none
    | .cells cs => some (rawCellMeasure (chunkRow cs) c)

/-!  Concrete claim inputs. -/

/-- A sample `TableCellStyle` ("info" tag, no explicit format, left
padding). -/
def infoCellStyle : TableCellStyle :=
  { cellFormat := none, tag := "info".toList, padAlign := .left }

/-- C1 counterexample input: a default-style table with a single cell
holding a line break. -/
def c1Table : Table :=
  (tableNew defaultStyle).setRows [.cells [.plain "a\nb".toList]]

/-- C2 failing input: `set_column_max_width(0, 2)` followed by a row whose
cell has display width 6. -/
def c2Table : Table :=
  ((tableNew defaultStyle).setColumnMaxWidth 0 2).setRows
    [.cells [.plain "abcdef".toList]]

/-- C3 failing input: an explicit column width floor of 5 and one short
row. -/
def c3Table : Table :=
  ((tableNew defaultStyle).setColumnWidth 0 5).setRows
    [.cells [.plain "a".toList]]

/-- C4 failing input: a styled cell whose text contains the
`<fg=default;bg=default>` reset marker (and is not wrapped in an explicit
markup tag). -/
def c4Table : Table :=
  (tableNew defaultStyle).setRows
    [.cells [.cell "x<fg=default;bg=default>y".toList 1 1 (some infoCellStyle)]]

/-- C5 counterexample input: two rows of different lengths. -/
def c5Table : Table :=
  (tableNew defaultStyle).setRows
    [.cells [.plain "a".toList],
     .cells [.plain "b".toList, .plain "c".toList]]

/-- A one-cell default-style table used as a witness input. -/
def w1Table : Table :=
  (tableNew defaultStyle).setRows [.cells [.plain "ab".toList]]

/-- C8 witness input: a table state with a width floor of 5 and a
max-width ceiling of 3 on column 0 (the ceiling field set directly, since
the `set_column_max_width` builder misroutes — see C2). -/
def c8Table : Table :=
  { tableNew defaultStyle with columnWidths := [(0, 5)], columnMaxWidths := [(0, 3)] }

/-- C8 witness input: one normalized content row of display width 6. -/
def c8Norm : List (Bool × PyRow) :=
  [(false, .cells [.plain "abcdef".toList])]

end Cleo

namespace Cleo

example : splitOnNl ['a', '\n', 'b'] = [['a'], ['b']] := by decide

example : replaceNl ['X', 'Y'] ['a', '\n', 'b'] = ['a', 'X', 'Y', 'b'] := by decide

example : formatTpl [' ', '{', '}', ' '] ['a'] = [' ', 'a', ' '] := by decide

example : removeFormat ('a' :: ("<fg=default;bg=default>".toList) ++ ['b']) = ['a', 'b'] := by
  decide

example : substrIn "</>".toList "a</>b".toList = true := by decide

example : substrIn "</>".toList "a<fg=x>b".toList = false := by decide

example : replaceAllStr "</>".toList [] "a</>b</>".toList = ['a', 'b'] := by decide

/-- C1, counterexample: rendering the same configured table twice is not
byte-identical for every configuration.  A table holding the single cell
`"a\nb"` renders four lines on the first call; the normalization pass
mutates the stored row in place (the cell becomes its first fragment with
injected markup and no line break), so the second call renders only three
lines. -/
theorem c1_counterexample :
    ∃ o1 t2 o2 t3, render c1Table = .ok (o1, t2) ∧ render t2 = .ok (o2, t3) ∧
      o1 ≠ o2 := by
  refine ⟨_, _, _, _, rfl, rfl, ?_⟩
  decide

/-- C2: `set_column_max_width` stores into the width-floor map
`_column_widths` instead of `_column_max_widths`, so the max-width map
stays empty, the wrap branch of `_build_table_rows` never fires, and the
claimed `ceil(6/2) = 3` wrapped fragment lines never appear: the table
with `set_column_max_width(0, 2)` and the width-6 cell `"abcdef"` renders
the cell unwrapped on a single content line. -/
theorem c2_failing_eval :
    c2Table.columnMaxWidths = [] ∧ c2Table.columnWidths = [(0, 2)] ∧
      ∃ t2, render c2Table =
        .ok (["+--------+".toList, "| abcdef |".toList, "+--------+".toList], t2) :=
  ⟨rfl, rfl, _, rfl⟩

/-- C3: `_cleanup` clears the wrong field.  After rendering a table
configured with `set_column_width(0, 5)`, the builder-configured width map
(which held `{0: 5}`) has been erased, while the transient effective-width
map is left populated (with `5 + 2 = 7` for column 0) instead of being
cleared. -/
theorem c3_failing_eval :
    c3Table.columnWidths = [(0, 5)] ∧
      ∃ out t2, render c3Table = .ok (out, t2) ∧ t2.columnWidths = [] ∧
        t2.effectiveColumnWidths = [(0, 7)] :=
  ⟨rfl, _, _, rfl, rfl, rfl⟩

/-- C4: `render` can raise even under a valid style.  The styled-cell
branch of `_render_cell` calls `content.replace("<fg=default;bg=default>")`
with a single argument — a `TypeError` — so a `TableCell` that carries a
`TableCellStyle` and whose text contains the reset marker makes `render`
raise. -/
theorem c4_failing_eval : render c4Table = .error PyErr.replaceArgErr := rfl

/-- C5, counterexample: normalization does not pad short rows to
`number_of_columns`.  With rows `[["a"], ["b", "c"]]` the column count is
2, yet the first normalized output row still has length 1. -/
theorem c5_counterexample :
    calcNumberOfColumns (assemble c5Table) = 2 ∧
      ∃ norm tagged,
        buildTableRows c5Table (calcNumberOfColumns (assemble c5Table))
            (assemble c5Table) = .ok (norm, tagged) ∧
          ∃ cs, norm.get? 1 = some (false, PyRow.cells cs) ∧ cs.length = 1 := by
  refine ⟨rfl, _, _, rfl, ⟨[.plain ['a']], rfl, rfl⟩⟩

/-- C5, amended: the fill step guarantees only that each row's length
equals that row's own column count (its cell count plus the sum of
`colspan − 1` over its cells) — not `number_of_columns`; rows shorter than
`number_of_columns` stay short and are completed to empty cells only at
drawing time. -/
theorem c5_amended_fill_length (cs : List PyCell) :
    (fillCellsList cs).length = getNumberOfColumns cs := by
  have aux : ∀ (l : List PyCell) (n : Nat),
      l.foldl (fun acc c => acc + (c.colspanOf - 1)) n =
        n + (l.map (fun c => c.colspanOf - 1)).sum := by
    intro l
    induction l with
    | nil => intro n; simp
    | cons c r ih =>
      intro n
      simp only [List.foldl_cons, List.map_cons, List.sum_cons, ih]
      omega
  induction cs with
  | nil => rfl
  | cons c r ih =>
    simp only [fillCellsList, List.length_cons, List.length_append,
      List.length_replicate, ih, getNumberOfColumns, aux, List.map_cons,
      List.sum_cons]
    omega

/-- C6, counterexample: the BOTTOM separator is not "always emitted once,
even for an empty table" — an empty default-style table has
`number_of_columns = 0`, `_render_row_separator` returns without writing,
and `render` writes no lines at all. -/
theorem c6_counterexample : ∃ t2, render (tableNew defaultStyle) = .ok ([], t2) :=
  ⟨_, rfl⟩

/-- `_render_row_separator` writes exactly one line whenever the table has
at least one column and the style draws rules. -/
theorem sepLines_single (t : Table) (eff : List (Nat × Nat)) (ncols : Nat)
    (ty : SepType) (title : Option Str) (tf : Str)
    (hn : ncols ≠ 0) (hs : styleDrawsRules t.style = true) :
    ∃ bl, renderRowSeparatorLines t eff ncols ty title tf = [bl] := by
  have hchk : (t.style.hOutside.isEmpty && t.style.hInside.isEmpty &&
      t.style.crossingChar.isEmpty) = false := by
    cases hcc : (t.style.hOutside.isEmpty && t.style.hInside.isEmpty &&
        t.style.crossingChar.isEmpty) with
    | false => rfl
    | true => unfold styleDrawsRules at hs; rw [hcc] at hs; exact absurd hs (by decide)
  simp only [renderRowSeparatorLines, if_neg hn, hchk]
  simp

/-- C6, amended: when `render` succeeds on a table with at least one
column and a style that draws rules, the output ends with the single line
written by the one `SEPARATOR_BOTTOM` emission (the final
`_render_row_separator` call) — but a table with no columns, or a style
with no horizontal/crossing glyphs, writes no BOTTOM line at all. -/
theorem c6_amended_bottom_last (t : Table) (out : List Str)
    (h : ∃ t2, render t = .ok (out, t2))
    (hn : ncolsOf t ≠ 0)
    (hs : styleDrawsRules t.style = true) :
    ∃ pre bl, out = pre ++ [bl] ∧ bottomSeparatorLines t = [bl] := by
  obtain ⟨t2, h⟩ := h
  simp only [render, bind, Except.bind] at h
  cases hb : buildTableRows t (calcNumberOfColumns (assemble t)) (assemble t) with
  | error e => rw [hb] at h; simp at h
  | ok b =>
    rw [hb] at h
    simp only [drawAll, bind, Except.bind] at h
    cases hf : List.foldlM
        (drawStep t (calcColumnWidths t (calcNumberOfColumns (assemble t)) b.1)
          (calcNumberOfColumns (assemble t)))
        (!t.horizontal, t.horizontal, ([] : List Str)) b.1 with
    | error e => rw [hf] at h; simp at h
    | ok st =>
      rw [hf] at h
      simp only [pure, Except.pure, Except.ok.injEq, Prod.mk.injEq] at h
      obtain ⟨hout, _⟩ := h
      obtain ⟨bl, hbl⟩ := sepLines_single t
        (calcColumnWidths t (calcNumberOfColumns (assemble t)) b.1)
        (calcNumberOfColumns (assemble t)) .bottom t.footerTitle
        t.style.footerTitleFormat hn hs
      refine ⟨st.2.2, bl, ?_, ?_⟩
      · rw [← hout, hbl]
      · simp only [bottomSeparatorLines, renderEff, ncolsOf, hb]
        exact hbl

/-- C6, witness: a one-cell default-style table renders three lines, the
last being its BOTTOM rule. -/
theorem c6_witness :
    ∃ pre bl,
      ["+----+".toList, "| ab |".toList, "+----+".toList] = pre ++ [bl] ∧
        bottomSeparatorLines w1Table = [bl] :=
  c6_amended_bottom_last w1Table
    ["+----+".toList, "| ab |".toList, "+----+".toList]
    ⟨_, rfl⟩ (by decide) (by decide)

/-- C7: style resolution.  Resolving an unregistered name fails with a
configuration error whose message carries the offending name (and, being a
builder-time operation, produces no output); resolving a registered name
or an explicit `TableStyle` instance never fails. -/
theorem c7_style_resolution (n : Str) (st : TableStyle) :
    (lookupStyle n = none →
      resolveStyleV (.inl n) = .error (styleErrMsg n) ∧
        ∃ pre post, styleErrMsg n = pre ++ n ++ post) ∧
      (∀ s, lookupStyle n = some s → resolveStyleV (.inl n) = .ok s) ∧
      resolveStyleV (.inr st) = .ok st := by
  refine ⟨fun h => ⟨?_, "Table style \x22".toList, "\x22 is not defined.".toList, rfl⟩,
    fun s h => ?_, rfl⟩
  · simp [resolveStyleV, h]
  · simp [resolveStyleV, h]

/-- C7, witness: `"not-a-style"` is rejected with its name in the message;
`"default"` and an explicit style instance resolve successfully. -/
theorem c7_witness :
    resolveStyleV (.inl "not-a-style".toList) =
        .error (styleErrMsg "not-a-style".toList) ∧
      resolveStyleV (.inl "default".toList) = .ok defaultStyle ∧
      resolveStyleV (.inr borderlessStyle) = .ok borderlessStyle :=
  ⟨((c7_style_resolution "not-a-style".toList borderlessStyle).1 (by decide)).1,
    (c7_style_resolution "default".toList borderlessStyle).2.1 defaultStyle (by rfl),
    (c7_style_resolution "default".toList borderlessStyle).2.2⟩

theorem alGet?_alSet_self {α : Type} (l : List (Nat × α)) (k : Nat) (v : α) :
    alGet? (alSet l k v) k = some v := by
  induction l with
  | nil => simp [alSet, alGet?]
  | cons p r ih =>
    by_cases hp : p.1 = k
    · simp [alSet, hp, alGet?]
    · simp only [alSet, if_neg hp]
      simpa [alGet?, List.find?, hp] using ih

theorem alGet?_alSet_ne {α : Type} (l : List (Nat × α)) (k : Nat) (v : α)
    (j : Nat) (h : ¬ j = k) :
    alGet? (alSet l k v) j = alGet? l j := by
  have h2 : ¬ k = j := fun e => h e.symm
  induction l with
  | nil => simp [alSet, alGet?, List.find?, h2]
  | cons p r ih =>
    by_cases hp : p.1 = k
    · subst hp
      simp [alSet, alGet?, List.find?, h, Ne.symm h]
    · simp only [alSet, if_neg hp]
      by_cases hj : p.1 = j
      · simp [alGet?, List.find?, hj]
      · simp only [alGet?, List.find?] at ih ⊢
        simp only [hj]
        simpa [hj] using ih

theorem getCellWidth_eq (cws mws : List (Nat × Nat)) (row : List PyCell) (c : Nat) :
    getCellWidth cws mws row c =
      optMin (alGet? mws c) (max (rawCellMeasure row c) (alGetD cws c 0)) := by
  cases hm : alGet? mws c <;>
    simp [getCellWidth, optMin, rawCellMeasure, hm, Nat.max_comm]

theorem calcAux_lookup (cws mws : List (Nat × Nat)) (tpl : Str)
    (norm : List (Bool × PyRow)) (c : Nat) :
    ∀ (cols : List Nat) (eff : List (Nat × Nat)),
      alGet? (calcAux cws mws tpl norm eff cols) c =
        if c ∈ cols then some (colWidthVal cws mws norm c + tpl.length - 2)
        else alGet? eff c := by
  intro cols
  induction cols with
  | nil => intro eff; simp [calcAux]
  | cons c0 rest ih =>
    intro eff
    simp only [calcAux, ih]
    by_cases hr : c ∈ rest
    · simp [hr, List.mem_cons]
    · by_cases hc : c = c0
      · subst hc
        simp [hr, alGet?_alSet_self]
      · simp [hr, hc, alGet?_alSet_ne _ _ _ _ hc]

theorem optMin_hom (M : Option Nat) (F a b : Nat) :
    optMin M (max (max a b) F) = max (optMin M (max a F)) (optMin M (max b F)) := by
  have hmax : max (max a b) F = max (max a F) (max b F) := by
    have := max_max_max_comm a b F F
    simpa [max_self] using this
  cases M with
  | none => simpa [optMin] using hmax
  | some m =>
    simp only [optMin, hmax]
    exact min_max_distrib_left m (max a F) (max b F)

theorem foldl_max_map_hom (M : Option Nat) (F : Nat) :
    ∀ (l : List Nat) (a : Nat),
      (l.map (fun m => optMin M (max m F))).foldl max (optMin M (max a F)) =
        optMin M (max (l.foldl max a) F) := by
  intro l
  induction l with
  | nil => intro a; simp
  | cons x xs ih =>
    intro a
    simp only [List.map_cons, List.foldl_cons]
    rw [← optMin_hom, ih]

theorem foldl_max_map_nonempty (M : Option Nat) (F : Nat) (l : List Nat)
    (h : l ≠ []) :
    (l.map (fun m => optMin M (max m F))).foldl max 0 =
      optMin M (max (l.foldl max 0) F) := by
  cases l with
  | nil => exact absurd rfl h
  | cons x xs =>
    simp only [List.map_cons, List.foldl_cons, Nat.zero_max]
    rw [foldl_max_map_hom]

theorem colWidthVal_eq (cws mws : List (Nat × Nat)) (norm : List (Bool × PyRow))
    (c : Nat) :
    colWidthVal cws mws norm c =
      ((measuredWidths norm c).map
        (fun m => optMin (alGet? mws c) (max m (alGetD cws c 0)))).foldl max 0 := by
  unfold colWidthVal measuredWidths
  congr 1
  induction norm with
  | nil => rfl
  | cons p rest ih =>
    cases hp : p.2 with
    | sep => simpa [List.filterMap_cons, hp] using ih
    | cells cs =>
      simp only [List.filterMap_cons, hp, List.map_cons]
      rw [getCellWidth_eq, ih]

/-- C8: for every column with at least one measured row, the effective
width equals the measured per-row display-width maximum, raised to the
configured per-column width floor, then capped by the configured
per-column max-width ceiling (the ceiling wins even over a larger floor),
plus the style's cell-content template length minus 2. -/
theorem c8_effective_width (t : Table) (ncols : Nat)
    (norm : List (Bool × PyRow)) (c : Nat)
    (heff : t.effectiveColumnWidths = [])
    (hc : c < ncols)
    (hne : measuredWidths norm c ≠ []) :
    alGet? (calcColumnWidths t ncols norm) c =
      some (optMin (alGet? t.columnMaxWidths c)
          (max ((measuredWidths norm c).foldl max 0) (alGetD t.columnWidths c 0))
        + t.style.cellRowContentFormat.length - 2) := by
  unfold calcColumnWidths
  rw [heff, calcAux_lookup, if_pos (List.mem_range.mpr hc), colWidthVal_eq,
    foldl_max_map_nonempty _ _ _ hne]

/-- C8, witness: floor 5 and ceiling 3 on a width-6 cell give effective
width `min(3, max(6, 5)) + 2 = 5` — the ceiling wins over the larger
floor. -/
theorem c8_witness :
    alGet? (calcColumnWidths c8Table 1 c8Norm) 0 =
      some (optMin (alGet? c8Table.columnMaxWidths 0)
          (max ((measuredWidths c8Norm 0).foldl max 0)
            (alGetD c8Table.columnWidths 0 0))
        + c8Table.style.cellRowContentFormat.length - 2) :=
  c8_effective_width c8Table 1 c8Norm 0 rfl (by decide) (by decide)

/-- C9: copy-on-resolve.  Resolving the same registered name twice
allocates two distinct style objects; writing through the first neither
changes the second nor the registry template, writing through the second
leaves the template untouched, and both resolved objects hold the
template's value. -/
theorem c9_copy_on_resolve (h : StyleHeap) (n : Str) (i : Nat)
    (hi : registryAddr? n = some i) (hlt : i < h.next) :
    ∃ h1 a1 h2 a2,
      resolveStyleH h (.inr n) = .ok (h1, a1) ∧
        resolveStyleH h1 (.inr n) = .ok (h2, a2) ∧
        a1 ≠ a2 ∧
        (∀ s, (writeStyle h2 a1 s).mem a2 = h2.mem a2 ∧
          (writeStyle h2 a1 s).mem i = h2.mem i ∧
          (writeStyle h2 a2 s).mem i = h2.mem i) ∧
        h2.mem a1 = h.mem i ∧ h2.mem a2 = h.mem i := by
  have hne : ¬ i = h.next := by omega
  have hne2 : ¬ i = h.next + 1 := by omega
  refine ⟨{ next := h.next + 1
            mem := fun a => if a = h.next then h.mem i else h.mem a },
    h.next,
    { next := h.next + 2
      mem := fun a =>
        if a = h.next + 1 then (if i = h.next then h.mem i else h.mem i)
        else if a = h.next then h.mem i else h.mem a },
    h.next + 1, ?_, ?_, by omega, ?_, ?_, ?_⟩
  · simp [resolveStyleH, hi]
  · simp [resolveStyleH, hi, hne]
  · intro s
    refine ⟨?_, ?_, ?_⟩
    · simp only [writeStyle]
      have : ¬ h.next + 1 = h.next := by omega
      simp [this]
    · simp only [writeStyle]
      simp [hne]
    · simp only [writeStyle]
      simp [hne2]
  · have hx : ¬ h.next = h.next + 1 := by omega
    simp [hx, hne]
  · simp [hne]

/-- C9, witness: the `"default"` template sits at address 0 of the initial
heap, below its allocation frontier. -/
theorem c9_witness :
    ∃ h1 a1 h2 a2,
      resolveStyleH initHeap (.inr "default".toList) = .ok (h1, a1) ∧
        resolveStyleH h1 (.inr "default".toList) = .ok (h2, a2) ∧
        a1 ≠ a2 ∧
        (∀ s, (writeStyle h2 a1 s).mem a2 = h2.mem a2 ∧
          (writeStyle h2 a1 s).mem 0 = h2.mem 0 ∧
          (writeStyle h2 a2 s).mem 0 = h2.mem 0) ∧
        h2.mem a1 = initHeap.mem 0 ∧ h2.mem a2 = initHeap.mem 0 :=
  c9_copy_on_resolve initHeap "default".toList 0 (by decide) (by decide)

end Cleo

namespace Cleo

theorem splitOnNl_ne_nil (s : Str) : splitOnNl s ≠ [] := by
  induction s with
  | nil => simp [splitOnNl]
  | cons c r ih =>
    simp only [splitOnNl]
    by_cases hc : c = '\n'
    · simp [hc]
    · simp only [if_neg hc]
      cases h : splitOnNl r with
      | nil => exact absurd h ih
      | cons a b => simp

theorem splitOnNl_head_noNl (s : Str) :
    hasChar ((splitOnNl s).headD []) '\n' = false := by
  induction s with
  | nil => simp [splitOnNl, hasChar]
  | cons c r ih =>
    simp only [splitOnNl]
    by_cases hc : c = '\n'
    · simp [hc, hasChar]
    · simp only [if_neg hc]
      cases h : splitOnNl r with
      | nil => exact absurd h (splitOnNl_ne_nil r)
      | cons a b =>
        rw [h] at ih
        simp only [List.headD_cons] at ih ⊢
        simp [hasChar, List.contains_cons] at ih ⊢
        exact ⟨fun he => hc he.symm, ih⟩

theorem listSetSame {α : Type} (l : List α) (n : Nat) (d : α)
    (h : n < l.length) : l.set n (l.getD n d) = l := by
  induction l generalizing n with
  | nil => simp at h
  | cons x r ih =>
    cases n with
    | zero => simp [List.getD]
    | succ m =>
      simp only [List.length_cons, Nat.succ_lt_succ_iff] at h
      simp only [List.set_cons_succ, List.getD_cons_succ]
      rw [ih m h]

theorem foldl_fixed {α β : Type} (f : α → β → α) (a : α) (l : List β)
    (h : ∀ x ∈ l, f a x = a) : l.foldl f a = a := by
  induction l with
  | nil => rfl
  | cons x r ih =>
    simp only [List.foldl_cons, h x (List.mem_cons_self x r)]
    exact ih (fun y hy => h y (List.mem_cons_of_mem x hy))

theorem fnrScanStep_id (line : Nat) (cs : List PyCell)
    (hclean : cs.all cellMutClean = true) (col : Nat) (hcol : col < cs.length) :
    fnrScanStep line (cs, []) col = (cs, []) := by
  have hmem : cs.getD col PyCell.pynone ∈ cs := by
    rw [List.getD_eq_getElem cs PyCell.pynone hcol]
    exact List.getElem_mem hcol
  have hcell := (List.all_eq_true.mp hclean) _ hmem
  unfold fnrScanStep
  dsimp only
  split
  · next text cspan rspan sty heq =>
    rw [heq] at hcell
    simp only [cellMutClean, PyCell.rowspanOf, Bool.and_eq_true,
      decide_eq_true_eq] at hcell
    have hn : ¬ 1 < rspan := by omega
    simp [hn]
  · rfl

end Cleo

namespace Cleo

theorem fillNextRows_nop (ncols : Nat) (rows : List ARow) (k : Nat)
    (hk : k < rows.length)
    (hclean : aRowMutClean (rows.getD k arDefault) = true) :
    fillNextRows ncols rows k = rows := by
  unfold fillNextRows
  dsimp only
  split
  · rfl
  · next cs heq =>
    have hcs : cs.all cellMutClean = true := by
      unfold aRowMutClean at hclean
      rw [heq] at hclean
      exact hclean
    have hscan : (List.range cs.length).foldl (fnrScanStep k) (cs, []) = (cs, []) := by
      apply foldl_fixed
      intro col hcol
      exact fnrScanStep_id k cs hcs col (List.mem_range.mp hcol)
    rw [hscan]
    simp only [List.foldl_nil]
    have har : { rows.getD k arDefault with row := PyRow.cells cs } =
        rows.getD k arDefault := by
      rw [← heq]
    rw [har, listSetSame rows k arDefault hk]

end Cleo

namespace Cleo

theorem prLines_row_const (col colspan : Nat) :
    ∀ (ls : List Str) (lk : Nat) (row : List PyCell)
      (frags : List (Nat × List PyCell)), lk ≠ 0 →
      (prLines col colspan lk ls row frags).1 = row := by
  intro ls
  induction ls with
  | nil => intro lk row frags _; rfl
  | cons ln rest ih =>
    intro lk row frags hlk
    unfold prLines
    simp only [if_neg hlk]
    exact ih (lk + 1) row _ (Nat.succ_ne_zero lk)

theorem all_set {α : Type} (P : α → Bool) :
    ∀ (l : List α) (n : Nat) (v : α), l.all P = true → P v = true →
      (l.set n v).all P = true := by
  intro l
  induction l with
  | nil => intro n v _ _; rfl
  | cons x r ih =>
    intro n v hall hv
    simp only [List.all_cons, Bool.and_eq_true] at hall
    cases n with
    | zero => simp [List.set_cons_zero, hv, hall.2]
    | succ m =>
      simp only [List.set_cons_succ, List.all_cons, Bool.and_eq_true]
      exact ⟨hall.1, ih m v hall.2 hv⟩

theorem alSet_all {α : Type} (P : α → Bool) :
    ∀ (l : List (Nat × α)) (k : Nat) (v : α),
      l.all (fun p => P p.2) = true → P v = true →
      (alSet l k v).all (fun p => P p.2) = true := by
  intro l
  induction l with
  | nil => intro k v _ hv; simp [alSet, hv]
  | cons p r ih =>
    intro k v hall hv
    simp only [List.all_cons, Bool.and_eq_true] at hall
    by_cases hp : p.1 = k
    · simp [alSet, hp, hv, hall.2]
    · simp only [alSet, if_neg hp, List.all_cons, Bool.and_eq_true]
      exact ⟨hall.1, ih k v hall.2 hv⟩

theorem alGet?_all {α : Type} (P : α → Bool) :
    ∀ (l : List (Nat × α)) (k : Nat) (v : α),
      l.all (fun p => P p.2) = true → alGet? l k = some v → P v = true := by
  intro l
  induction l with
  | nil => intro k v _ h; simp [alGet?] at h
  | cons p r ih =>
    intro k v hall hget
    simp only [List.all_cons, Bool.and_eq_true] at hall
    simp only [alGet?, List.find?] at hget
    cases hd : (decide (p.1 = k)) with
    | true =>
      rw [hd] at hget
      simp only [Option.map_some] at hget
      cases hget
      exact hall.1
    | false =>
      rw [hd] at hget
      exact ih k v hall.2 hget

theorem copyRowCells_sf (r : PyRow) : (copyRowCells r).all sfCell = true := by
  cases r with
  | sep => rfl
  | cells cs =>
    simp only [copyRowCells, List.all_map]
    apply List.all_eq_true.mpr
    intro c _
    by_cases h : c.isTableCell <;> simp [h, sfCell, PyCell.styleOf]

theorem lineCell_sf (colspan : Nat) (ln : Str) :
    sfCell (if colspan > 1 then PyCell.cell ln colspan 1 none else PyCell.plain ln) = true := by
  by_cases h : colspan > 1 <;> simp [h, sfCell, PyCell.styleOf]

theorem prLines_frags_sf (col colspan : Nat) :
    ∀ (ls : List Str) (lk : Nat) (row : List PyCell)
      (frags : List (Nat × List PyCell)), fragsSF frags = true →
      fragsSF (prLines col colspan lk ls row frags).2 = true := by
  intro ls
  induction ls with
  | nil => intro lk row frags h; exact h
  | cons ln rest ih =>
    intro lk row frags h
    unfold prLines
    by_cases hlk : lk = 0
    · simp only [if_pos hlk]
      exact ih 1 _ frags h
    · simp only [if_neg hlk]
      apply ih
      unfold fragsSF at h ⊢
      apply alSet_all (fun fr : List PyCell => fr.all sfCell)
      · exact h
      · apply all_set
        · cases hg : alGet? frags lk with
          | none => simp [copyRowCells_sf]
          | some fr =>
            simp only [Option.getD_some]
            exact alGet?_all (fun fr : List PyCell => fr.all sfCell) frags lk fr h hg
        · exact lineCell_sf colspan ln

end Cleo

namespace Cleo

theorem getD_append_len {α : Type} (pre post : List α) (c d : α) :
    (pre ++ c :: post).getD pre.length d = c := by
  induction pre with
  | nil => rfl
  | cons x r ih => simpa using ih

theorem set_append_len {α : Type} (pre post : List α) (c v : α) :
    (pre ++ c :: post).set pre.length v = pre ++ v :: post := by
  induction pre with
  | nil => rfl
  | cons x r ih => simp [ih]

theorem alGet?_nil {α : Type} (k : Nat) : alGet? ([] : List (Nat × α)) k = none := rfl

theorem prLines_zero (col colspan : Nat) (l0 : Str) (rest : List Str)
    (row : List PyCell) (frags : List (Nat × List PyCell)) :
    prLines col colspan 0 (l0 :: rest) row frags =
      prLines col colspan 1 rest
        (row.set col (if colspan > 1 then PyCell.cell l0 colspan 1 none
          else PyCell.plain l0)) frags := rfl

theorem prLines_pair (col colspan : Nat) (ls : List Str) (row : List PyCell)
    (frags : List (Nat × List PyCell)) :
    prLines col colspan 1 ls row frags =
      (row, (prLines col colspan 1 ls row frags).2) := by
  have h1 := prLines_row_const col colspan ls 1 row frags (by omega)
  cases hp : prLines col colspan 1 ls row frags
  rw [hp] at h1
  simp only at h1
  rw [h1]

theorem prCellStep_spec (pre post : List PyCell) (c : PyCell)
    (frags : List (Nat × List PyCell)) (hc : ¬ c = PyCell.pynone) :
    ∃ frags2,
      prCellStep [] (pre ++ c :: post, frags) pre.length =
        Except.ok (pre ++ transformCell c :: post, frags2) ∧
      (fragsSF frags = true → fragsSF frags2 = true) ∧
      (hasChar c.textOf '\n' = false → frags2 = frags) := by
  have hget : (pre ++ c :: post).getD pre.length PyCell.pynone = c :=
    getD_append_len pre post c PyCell.pynone
  unfold prCellStep
  dsimp only
  rw [alGet?_nil, hget]
  by_cases hnl : hasChar c.textOf '\n' = false
  · refine ⟨frags, ?_, fun h => h, fun _ => rfl⟩
    have htf : transformCell c = c := by
      unfold transformCell
      rw [Bool.eq_false_iff] at hnl
      simp [hnl]
    rw [htf]
    cases c with
    | pynone => exact absurd rfl hc
    | plain s => simp only [bind, Except.bind, pure, Except.pure]; rw [if_pos hnl]
    | cell t csp rsp sty => simp only [bind, Except.bind, pure, Except.pure]; rw [if_pos hnl]
    | sepcell => simp only [bind, Except.bind, pure, Except.pure]; rw [if_pos hnl]
  · have hnl2 : hasChar c.textOf '\n' = true := by
      cases h : hasChar c.textOf '\n' with
      | true => rfl
      | false => exact absurd h hnl
    cases c with
    | pynone => exact absurd rfl hc
    | sepcell => simp [PyCell.textOf, hasChar] at hnl2
    | plain s =>
      dsimp only [PyCell.textOf] at hnl2
      simp only [bind, Except.bind, pure, Except.pure]
      rw [if_neg hnl]
      simp only [PyCell.isTableCell, PyCell.textOf, PyCell.colspanOf,
        Bool.false_eq_true, if_false]
      cases hls : splitOnNl (replaceNl nlMarker
          (joinNl ((splitOnNl s).map escapeTrailingBackslash))) with
      | nil => exact absurd hls (splitOnNl_ne_nil _)
      | cons l0 rest =>
        rw [prLines_zero, set_append_len, prLines_pair]
        refine ⟨(prLines pre.length 1 1 rest
          (pre ++ (if 1 > 1 then PyCell.cell l0 1 1 none else PyCell.plain l0) :: post)
          frags).2, ?_, ?_, ?_⟩
        · have htf : transformCell (PyCell.plain s) =
              (if 1 > 1 then PyCell.cell l0 1 1 none else PyCell.plain l0) := by
            unfold transformCell firstFragCell
            dsimp only [PyCell.textOf, PyCell.colspanOf]
            rw [if_pos hnl2, hls]
            simp only [List.headD_cons]
          rw [htf]
        · intro h
          exact prLines_frags_sf _ _ _ _ _ _ h
        · intro h
          rw [h] at hnl2
          exact absurd hnl2 (by decide)
    | cell t csp rsp sty =>
      dsimp only [PyCell.textOf] at hnl2
      simp only [bind, Except.bind, pure, Except.pure]
      rw [if_neg hnl]
      simp only [PyCell.isTableCell, PyCell.textOf, PyCell.colspanOf, if_true]
      cases hls : splitOnNl (replaceNl nlMarker
          (joinNl ((splitOnNl t).map escapeTrailingBackslash))) with
      | nil => exact absurd hls (splitOnNl_ne_nil _)
      | cons l0 rest =>
        rw [prLines_zero, set_append_len, prLines_pair]
        refine ⟨(prLines pre.length csp 1 rest
          (pre ++ (if csp > 1 then PyCell.cell l0 csp 1 none else PyCell.plain l0) :: post)
          frags).2, ?_, ?_, ?_⟩
        · have htf : transformCell (PyCell.cell t csp rsp sty) =
              (if csp > 1 then PyCell.cell l0 csp 1 none else PyCell.plain l0) := by
            unfold transformCell firstFragCell
            dsimp only [PyCell.textOf, PyCell.colspanOf]
            rw [if_pos hnl2, hls]
            simp only [List.headD_cons]
          rw [htf]
        · intro h
          exact prLines_frags_sf _ _ _ _ _ _ h
        · intro h
          rw [h] at hnl2
          exact absurd hnl2 (by decide)

end Cleo

namespace Cleo

theorem processRow_loop :
    ∀ (post pre : List PyCell) (frags : List (Nat × List PyCell)),
      post.all cellMutClean = true →
      ∃ frags2,
        (List.range' pre.length post.length).foldlM (prCellStep [])
            (pre ++ post, frags) =
          Except.ok (pre ++ post.map transformCell, frags2) ∧
        (fragsSF frags = true → fragsSF frags2 = true) ∧
        (post.all (fun c => !hasChar c.textOf '\n') = true → frags2 = frags) := by
  intro post
  induction post with
  | nil =>
    intro pre frags _
    exact ⟨frags, by simp [pure, Except.pure], fun h => h, fun _ => rfl⟩
  | cons c rest ih =>
    intro pre frags hall
    simp only [List.all_cons, Bool.and_eq_true] at hall
    have hcne : ¬ c = PyCell.pynone := by
      have := hall.1
      simp only [cellMutClean, sfCell, Bool.and_eq_true] at this
      intro he
      rw [he] at this
      simp at this
    obtain ⟨f2, heq, hsf, hnlc⟩ := prCellStep_spec pre rest c frags hcne
    have hlen : (pre ++ [transformCell c]).length = pre.length + 1 := by simp
    obtain ⟨f3, heq3, hsf3, hnl3⟩ := ih (pre ++ [transformCell c]) f2 hall.2
    rw [hlen] at heq3
    refine ⟨f3, ?_, fun h => hsf3 (hsf h), ?_⟩
    · simp only [List.length_cons, List.range'_succ, List.foldlM_cons, heq]
      simp only [bind, Except.bind]
      have hshape : pre ++ transformCell c :: rest =
          (pre ++ [transformCell c]) ++ rest := by simp
      rw [hshape, heq3]
      simp
    · intro h
      simp only [List.all_cons, Bool.and_eq_true] at h
      rw [hnl3 h.2]
      exact hnlc (by simpa using h.1)

theorem processRow_spec (cs : List PyCell) (h : cs.all cellMutClean = true) :
    ∃ frags2,
      processRow [] cs = Except.ok (cs.map transformCell, frags2) ∧
      fragsSF frags2 = true ∧
      (cs.all (fun c => !hasChar c.textOf '\n') = true → frags2 = []) := by
  unfold processRow
  rw [List.range_eq_range']
  obtain ⟨f2, heq, hsf, hnl⟩ := processRow_loop cs [] [] h
  simp only [List.nil_append, List.length_nil] at heq
  exact ⟨f2, heq, hsf rfl, hnl⟩

end Cleo

namespace Cleo

theorem buildLoop_spec (ncols : Nat) :
    ∀ (f k : Nat) (rows : List ARow) (um : List (Nat × List (List PyCell))),
      rows.length ≤ k + f →
      (rows.drop k).all aRowMutClean = true →
      ∃ um2,
        buildLoop [] ncols f rows um k =
          Except.ok (rows.take k ++
            (rows.drop k).map (aMapG (List.map transformCell)), um2) ∧
        (umStyleFree um = true → umStyleFree um2 = true) ∧
        ((rows.drop k).all aRowNoNl = true → um2 = um) := by
  intro f
  induction f with
  | zero =>
    intro k rows um hlen hclean
    have hdk : rows.drop k = [] := List.drop_eq_nil_of_le (by omega)
    refine ⟨um, ?_, fun h => h, fun _ => rfl⟩
    rw [hdk]
    simp only [List.map_nil, List.append_nil]
    rw [List.take_of_length_le (by omega)]
    rfl
  | succ f ih =>
    intro k rows um hlen hclean
    by_cases hk : k < rows.length
    · have hgd : rows.getD k arDefault = rows[k] :=
        List.getD_eq_getElem rows arDefault hk
      have hdk : rows.drop k = rows[k] :: rows.drop (k + 1) :=
        List.drop_eq_getElem_cons hk
      rw [hdk] at hclean
      simp only [List.all_cons, Bool.and_eq_true] at hclean
      have hfnr : fillNextRows ncols rows k = rows :=
        fillNextRows_nop ncols rows k hk (by rw [hgd]; exact hclean.1)
      have htake : rows.take (k + 1) = rows.take k ++ [rows[k]] := by
        rw [List.take_succ]
        simp [List.getElem?_eq_getElem hk]
      unfold buildLoop
      dsimp only
      rw [if_pos hk, hfnr, hgd]
      split
      · next heq =>
        obtain ⟨um2, h1, h2, h3⟩ := ih (k + 1) rows um (by omega) hclean.2
        refine ⟨um2, ?_, h2, ?_⟩
        · rw [h1, htake, hdk]
          simp only [List.map_cons]
          have hid : aMapG (List.map transformCell) rows[k] = rows[k] := by
            unfold aMapG
            have hr : rowMapG (List.map transformCell) (rows[k]).row = (rows[k]).row := by
              rw [heq]
              rfl
            rw [hr]
          rw [hid]
          simp only [List.append_assoc, List.singleton_append]
        · intro h
          rw [hdk] at h
          simp only [List.all_cons, Bool.and_eq_true] at h
          exact h3 h.2
      · next cs heq =>
        have hcs : cs.all cellMutClean = true := by
          have hx := hclean.1
          unfold aRowMutClean at hx
          rw [heq] at hx
          exact hx
        obtain ⟨frags2, hpr, hprsf, hprnl⟩ := processRow_spec cs hcs
        rw [hpr]
        simp only [bind, Except.bind]
        have hset : rows.set k { rows[k] with row := PyRow.cells (cs.map transformCell) } =
            rows.take k ++ { rows[k] with row := PyRow.cells (cs.map transformCell) } ::
              rows.drop (k + 1) := by
          rw [List.set_eq_take_append_cons_drop, if_pos hk]
        have hlt : (rows.take k).length = k := by
          rw [List.length_take]
          omega
        have hrows2drop :
            (rows.set k { rows[k] with row := PyRow.cells (cs.map transformCell) }).drop
              (k + 1) = rows.drop (k + 1) := by
          rw [hset]
          have hd := @List.drop_append _ (rows.take k)
            ({ rows[k] with row := PyRow.cells (cs.map transformCell) } ::
              rows.drop (k + 1)) 1
          rw [hlt] at hd
          rw [hd]
          rfl
        have hrows2take :
            (rows.set k { rows[k] with row := PyRow.cells (cs.map transformCell) }).take
              (k + 1) = rows.take k ++
              [{ rows[k] with row := PyRow.cells (cs.map transformCell) }] := by
          rw [hset]
          have hd := @List.take_append _ (rows.take k)
            ({ rows[k] with row := PyRow.cells (cs.map transformCell) } ::
              rows.drop (k + 1)) 1
          rw [hlt] at hd
          rw [hd]
          rfl
        obtain ⟨um3, h1, h2, h3⟩ := ih (k + 1)
          (rows.set k { rows[k] with row := PyRow.cells (cs.map transformCell) })
          (if frags2.isEmpty = true then um else alSet um k (frags2.map Prod.snd))
          (by rw [List.length_set]; omega)
          (by rw [hrows2drop]; exact hclean.2)
        refine ⟨um3, ?_, ?_, ?_⟩
        · rw [h1, hrows2take, hrows2drop, hdk]
          simp only [List.map_cons]
          have hmap : aMapG (List.map transformCell) rows[k] =
              { rows[k] with row := PyRow.cells (cs.map transformCell) } := by
            unfold aMapG
            rw [heq]
            rfl
          rw [hmap]
          simp only [List.append_assoc, List.singleton_append]
        · intro h
          apply h2
          by_cases he : frags2.isEmpty = true
          · rw [if_pos he]
            exact h
          · rw [if_neg he]
            unfold umStyleFree at h ⊢
            apply alSet_all (fun v : List (List PyCell) => v.all (fun fr => fr.all sfCell))
            · exact h
            · unfold fragsSF at hprsf
              apply List.all_eq_true.mpr
              intro v hv
              obtain ⟨p, hp, hpe⟩ := List.mem_map.mp hv
              rw [← hpe]
              exact (List.all_eq_true.mp hprsf) p hp
        · intro h
          rw [hdk] at h
          simp only [List.all_cons, Bool.and_eq_true] at h
          have hhd : cs.all (fun c => !hasChar c.textOf '\n') = true := by
            have hx := h.1
            unfold aRowNoNl at hx
            rw [heq] at hx
            exact hx
          have hfe : frags2 = [] := hprnl hhd
          have : (if frags2.isEmpty = true then um
              else alSet um k (frags2.map Prod.snd)) = um := by
            rw [hfe]
            rfl
          rw [this] at h3
          apply h3
          rw [hrows2drop]
          exact h.2
    · have hdk : rows.drop k = [] := List.drop_eq_nil_of_le (by omega)
      refine ⟨um, ?_, fun h => h, fun _ => rfl⟩
      rw [hdk]
      simp only [List.map_nil, List.append_nil]
      rw [List.take_of_length_le (by omega)]
      unfold buildLoop
      rw [if_neg hk]

end Cleo

namespace Cleo

theorem buildTableRows_spec (t : Table) (ncols : Nat)
    (hm : t.columnMaxWidths = [])
    (hclean : (assemble t).all aRowMutClean = true) :
    ∃ um2,
      buildTableRows t ncols (assemble t) =
        Except.ok
          (buildYield ((assemble t).map (aMapG (List.map transformCell))) um2,
            (assemble t).map (aMapG (List.map transformCell))) ∧
      umStyleFree um2 = true ∧
      ((assemble t).all aRowNoNl = true → um2 = []) := by
  unfold buildTableRows
  rw [hm]
  have hfuel : (assemble t).length ≤ 0 + buildFuel (assemble t) := by
    unfold buildFuel
    omega
  obtain ⟨um2, h1, h2, h3⟩ := buildLoop_spec ncols (buildFuel (assemble t)) 0
    (assemble t) [] hfuel (by simpa using hclean)
  simp only [List.drop_zero, List.take_zero, List.nil_append] at h1
  rw [h1]
  simp only [bind, Except.bind, pure, Except.pure]
  exact ⟨um2, rfl, h2 rfl, fun h => h3 (by simpa using h)⟩

theorem fillCellsList_sf (cs : List PyCell) (h : cs.all sfCell = true) :
    (fillCellsList cs).all sfCell = true := by
  induction cs with
  | nil => rfl
  | cons c r ih =>
    simp only [List.all_cons, Bool.and_eq_true] at h
    simp only [fillCellsList, List.all_cons, List.all_append, Bool.and_eq_true]
    refine ⟨h.1, ?_, ih h.2⟩
    rw [List.all_replicate]
    split
    · rfl
    · rfl

theorem fillCellsRow_sf (r : PyRow) (h : sfRow r = true) :
    sfRow (fillCellsRow r) = true := by
  cases r with
  | sep => rfl
  | cells cs => exact fillCellsList_sf cs h

theorem buildYield_sf (rows : List ARow) (um : List (Nat × List (List PyCell)))
    (hr : rows.all (fun ar => sfRow ar.row) = true)
    (hu : umStyleFree um = true) :
    (buildYield rows um).all (fun p => sfRow p.2) = true := by
  apply List.all_eq_true.mpr
  intro p hp
  unfold buildYield at hp
  rw [List.mem_flatMap] at hp
  obtain ⟨q, hq, hpq⟩ := hp
  have hqm : q.2 ∈ rows := by
    rw [← List.enum_map_snd rows]
    exact List.mem_map_of_mem _ hq
  have hq2 : sfRow q.2.row = true := (List.all_eq_true.mp hr) _ hqm
  rcases List.mem_cons.mp hpq with hhd | htl
  · rw [hhd]
    exact fillCellsRow_sf _ hq2
  · obtain ⟨fr, hfr, hfre⟩ := List.mem_map.mp htl
    rw [← hfre]
    have hfrsf : fr.all sfCell = true := by
      cases hg : alGet? um q.1 with
      | none => simp [alGetD, hg] at hfr
      | some v =>
        have hv : v.all (fun fr => fr.all sfCell) = true :=
          alGet?_all (fun v : List (List PyCell) => v.all (fun fr => fr.all sfCell))
            um q.1 v hu hg
        have : fr ∈ v := by simpa [alGetD, hg] using hfr
        exact (List.all_eq_true.mp hv) fr this
    exact fillCellsList_sf fr hfrsf

theorem transformCell_sf (c : PyCell) (h : cellMutClean c = true) :
    sfCell (transformCell c) = true := by
  unfold transformCell
  split
  · unfold firstFragCell
    exact lineCell_sf c.colspanOf _
  · simp only [cellMutClean, Bool.and_eq_true] at h
    exact h.2

theorem tfm_rows_sf (rows : List ARow) (h : rows.all aRowMutClean = true) :
    ((rows.map (aMapG (List.map transformCell))).all (fun ar => sfRow ar.row)) = true := by
  apply List.all_eq_true.mpr
  intro ar har
  obtain ⟨ar0, har0, hare⟩ := List.mem_map.mp har
  rw [← hare]
  have h0 : aRowMutClean ar0 = true := (List.all_eq_true.mp h) _ har0
  unfold aMapG
  cases hr : ar0.row with
  | sep => rfl
  | cells cs =>
    unfold aRowMutClean at h0
    rw [hr] at h0
    simp only [rowMapG, sfRow]
    apply List.all_eq_true.mpr
    intro c hc
    obtain ⟨c0, hc0, hce⟩ := List.mem_map.mp hc
    rw [← hce]
    exact transformCell_sf c0 ((List.all_eq_true.mp h0) _ hc0)

end Cleo

namespace Cleo

theorem renderCell_ok (t : Table) (eff : List (Nat × Nat)) (cs : List PyCell)
    (col : Nat) (fmt : Str) (h : cs.all sfCell = true) :
    ∃ s, renderCell t eff cs col fmt = Except.ok s := by
  have hc : sfCell (cs.getD col (PyCell.plain [])) = true := by
    by_cases hlt : col < cs.length
    · rw [List.getD_eq_getElem _ _ hlt]
      exact (List.all_eq_true.mp h) _ (List.getElem_mem hlt)
    · have : cs.getD col (PyCell.plain []) = PyCell.plain [] := by
        rw [List.getD_eq_getElem?_getD]
        rw [List.getElem?_eq_none (by omega)]
        rfl
      rw [this]
      rfl
  unfold renderCell
  dsimp only
  split
  · exact ⟨_, rfl⟩
  · next heq =>
    rw [heq] at hc
    simp [sfCell] at hc
  · next c h1 h2 =>
    split
    · next cst heq =>
      exfalso
      simp only [sfCell, Bool.and_eq_true] at hc
      have hx := hc.1
      rw [heq] at hx
      simp at hx
    · exact ⟨_, rfl⟩

end Cleo

namespace Cleo

theorem foldlM_ok_of_steps {α β : Type} (f : β → α → Except PyErr β)
    (l : List α) (h : ∀ b a, a ∈ l → ∃ b2, f b a = Except.ok b2) :
    ∀ b, ∃ b2, l.foldlM f b = Except.ok b2 := by
  induction l with
  | nil => intro b; exact ⟨b, rfl⟩
  | cons x r ih =>
    intro b
    obtain ⟨b2, hb2⟩ := h b x (List.mem_cons_self x r)
    obtain ⟨b3, hb3⟩ := ih (fun b a ha => h b a (List.mem_cons_of_mem x ha)) b2
    refine ⟨b3, ?_⟩
    rw [List.foldlM_cons, hb2]
    simpa [bind, Except.bind] using hb3

theorem renderRow_ok (t : Table) (eff : List (Nat × Nat)) (ncols : Nat)
    (cs : List PyCell) (fmt : Str) (ffmt : Option Str)
    (h : cs.all sfCell = true) :
    ∃ s, renderRow t eff ncols cs fmt ffmt = Except.ok s := by
  unfold renderRow
  apply foldlM_ok_of_steps
  intro b a _
  obtain ⟨s1, hs1⟩ := renderCell_ok t eff cs a.2
    (match ffmt with
     | some f => if a.1 = 0 then f else fmt
     | none => fmt) h
  refine ⟨b ++ s1 ++ renderColumnSeparator t (a.1 = (getRowColumns ncols cs).length - 1), ?_⟩
  simp only [bind, Except.bind, hs1, pure, Except.pure]

theorem drawStep_ok (t : Table) (eff : List (Nat × Nat)) (ncols : Nat)
    (st : Bool × Bool × List Str) (p : Bool × PyRow)
    (h : sfRow p.2 = true) :
    ∃ st2, drawStep t eff ncols st p = Except.ok st2 := by
  unfold drawStep
  by_cases hd : p.1
  · rw [if_pos hd]
    exact ⟨_, rfl⟩
  · rw [if_neg hd]
    cases hr : p.2 with
    | sep => exact ⟨_, rfl⟩
    | cells cs =>
      cases cs with
      | nil => exact ⟨_, rfl⟩
      | cons c r =>
        have hsf : (c :: r).all sfCell = true := by
          unfold sfRow at h
          rw [hr] at h
          exact h
        dsimp only
        by_cases hh : t.horizontal
        · obtain ⟨s, hs⟩ := renderRow_ok t eff ncols (c :: r)
            t.style.cellRowFormat (some t.style.cellHeaderFormat) hsf
          rw [if_pos hh, hs]
          simp only [bind, Except.bind, pure, Except.pure]
          exact ⟨_, rfl⟩
        · obtain ⟨s, hs⟩ := renderRow_ok t eff ncols (c :: r)
            (if st.1 then t.style.cellHeaderFormat else t.style.cellRowFormat)
            none hsf
          rw [if_neg hh, hs]
          simp only [bind, Except.bind, pure, Except.pure]
          exact ⟨_, rfl⟩

theorem drawAll_ok (t : Table) (eff : List (Nat × Nat)) (ncols : Nat)
    (norm : List (Bool × PyRow))
    (h : norm.all (fun p => sfRow p.2) = true) :
    ∃ out, drawAll t eff ncols norm = Except.ok out := by
  unfold drawAll
  obtain ⟨st2, hst2⟩ := foldlM_ok_of_steps (drawStep t eff ncols) norm
    (fun b a ha => drawStep_ok t eff ncols b a ((List.all_eq_true.mp h) a ha))
    (!t.horizontal, t.horizontal, ([] : List Str))
  rw [hst2]
  simp only [bind, Except.bind, pure, Except.pure]
  exact ⟨_, rfl⟩

end Cleo

namespace Cleo

theorem enumFrom_map_get {α β : Type} (F : Nat → α → β) (G : α → β)
    (l : List α) : ∀ n, (∀ i x, l.get? i = some x → F (n + i) x = G x) →
      (List.enumFrom n l).map (fun p => F p.1 p.2) = l.map G := by
  induction l with
  | nil => intro n _; rfl
  | cons x r ih =>
    intro n h
    simp only [List.enumFrom, List.map_cons]
    have h0 : F n x = G x := by
      have := h 0 x rfl
      simpa using this
    rw [h0]
    have htail : (List.enumFrom (n + 1) r).map (fun p => F p.1 p.2) = r.map G := by
      apply ih (n + 1)
      intro i y hy
      have hadd : n + 1 + i = n + (i + 1) := by omega
      rw [hadd]
      exact h (i + 1) y (by simpa using hy)
    rw [htail]

theorem findTagRow_tagHeaders_skip (g : List PyCell → List PyCell) :
    ∀ (hs : List (List PyCell)) (off : Nat) (tg : RTag) (cont : List ARow),
      (∀ i, ¬ tg = RTag.hdr i) →
      findTagRow tg ((tagHeaders off hs).map (aMapG g) ++ cont) =
        findTagRow tg cont := by
  intro hs
  induction hs with
  | nil => intro off tg cont _; rfl
  | cons h r ih =>
    intro off tg cont hne
    simp only [tagHeaders, List.map_cons, List.cons_append, findTagRow]
    dsimp only [aMapG, rowMapG]
    have hx : ¬ RTag.hdr off = tg := fun he => hne off he.symm
    rw [if_neg hx]
    exact ih (off + 1) tg cont hne

theorem findTag_in_tagBody_map (g : List PyCell → List PyCell) :
    ∀ (rs : List PyRow) (off j : Nat),
      findTagRow (RTag.body (off + j)) ((tagBody off rs).map (aMapG g)) =
        (rs.get? j).map (rowMapG g) := by
  intro rs
  induction rs with
  | nil => intro off j; rfl
  | cons r rest ih =>
    intro off j
    simp only [tagBody, List.map_cons, findTagRow]
    dsimp only [aMapG]
    cases j with
    | zero =>
      simp only [Nat.add_zero]
      simp
    | succ m =>
      have hne : ¬ RTag.body off = RTag.body (off + (m + 1)) := by
        simp only [RTag.body.injEq]
        omega
      rw [if_neg hne]
      have hadd : off + (m + 1) = (off + 1) + m := by omega
      rw [hadd, ih (off + 1) m]
      rfl

theorem findTag_in_tagHeaders_map (g : List PyCell → List PyCell) :
    ∀ (hs : List (List PyCell)) (off i : Nat) (cont : List ARow),
      (cont.all (fun ar => !(ar.tag = RTag.hdr (off + i) : Bool)) = true) →
      findTagRow (RTag.hdr (off + i)) ((tagHeaders off hs).map (aMapG g) ++ cont) =
        (hs.get? i).map (fun h => PyRow.cells (g h)) := by
  intro hs
  induction hs with
  | nil =>
    intro off i cont hcont
    simp only [tagHeaders, List.map_nil, List.nil_append]
    induction cont with
    | nil => rfl
    | cons a r ihc =>
      simp only [List.all_cons, Bool.and_eq_true] at hcont
      simp only [findTagRow]
      have hx : ¬ a.tag = RTag.hdr (off + i) := by
        intro he
        rw [he] at hcont
        simp at hcont
      rw [if_neg hx]
      exact ihc hcont.2
  | cons h r ih =>
    intro off i cont hcont
    simp only [tagHeaders, List.map_cons, List.cons_append, findTagRow]
    dsimp only [aMapG, rowMapG]
    cases i with
    | zero =>
      simp only [Nat.add_zero]
      simp
    | succ m =>
      have hne : ¬ RTag.hdr off = RTag.hdr (off + (m + 1)) := by
        simp only [RTag.hdr.injEq]
        omega
      rw [if_neg hne]
      have hadd : off + (m + 1) = (off + 1) + m := by omega
      rw [hadd]
      simp only [List.append_eq]
      rw [ih (off + 1) m cont (by rw [← hadd]; exact hcont)]
      rfl

end Cleo

namespace Cleo

theorem assemble_vertical (t : Table) (hh : t.horizontal = false) :
    assemble t = tagHeaders 0 t.headers ++
      (⟨RTag.fresh, true, PyRow.sep⟩ :: tagBody 0 t.rows) := by
  unfold assemble
  rw [hh]
  simp

theorem tagBody_no_hdr (g : List PyCell → List PyCell) :
    ∀ (rs : List PyRow) (off x : Nat),
      ((tagBody off rs).map (aMapG g)).all
        (fun ar => !(ar.tag = RTag.hdr x : Bool)) = true := by
  intro rs
  induction rs with
  | nil => intro off x; rfl
  | cons r rest ih =>
    intro off x
    simp only [tagBody, List.map_cons, List.all_cons, Bool.and_eq_true]
    constructor
    · dsimp only [aMapG]
      simp
    · exact ih (off + 1) x

theorem findTag_body_assemble (t : Table) (g : List PyCell → List PyCell)
    (hh : t.horizontal = false) (j : Nat) :
    findTagRow (RTag.body j) ((assemble t).map (aMapG g)) =
      (t.rows.get? j).map (rowMapG g) := by
  rw [assemble_vertical t hh]
  simp only [List.map_append, List.map_cons]
  rw [findTagRow_tagHeaders_skip g t.headers 0 (RTag.body j) _ (by intro i; simp)]
  simp only [findTagRow]
  have hne : ¬ (aMapG g ⟨RTag.fresh, true, PyRow.sep⟩).tag = RTag.body j := by
    dsimp only [aMapG]
    simp
  rw [if_neg hne]
  have hl := findTag_in_tagBody_map g t.rows 0 j
  simpa using hl

theorem findTag_hdr_assemble (t : Table) (g : List PyCell → List PyCell)
    (hh : t.horizontal = false) (i : Nat) :
    findTagRow (RTag.hdr i) ((assemble t).map (aMapG g)) =
      (t.headers.get? i).map (fun h => PyRow.cells (g h)) := by
  rw [assemble_vertical t hh]
  simp only [List.map_append, List.map_cons]
  have hcont : ((aMapG g ⟨RTag.fresh, true, PyRow.sep⟩ ::
      (tagBody 0 t.rows).map (aMapG g)).all
        (fun ar => !(ar.tag = RTag.hdr (0 + i) : Bool))) = true := by
    simp only [List.all_cons, Bool.and_eq_true]
    constructor
    · dsimp only [aMapG]
      simp
    · exact tagBody_no_hdr g t.rows 0 (0 + i)
  have hl := findTag_in_tagHeaders_map g t.headers 0 i _ hcont
  simpa using hl

theorem extractRows_assemble (t : Table) (g : List PyCell → List PyCell)
    (hh : t.horizontal = false) :
    extractRows t ((assemble t).map (aMapG g)) = t.rows.map (rowMapG g) := by
  unfold extractRows
  show (List.enumFrom 0 t.rows).map _ = _
  refine enumFrom_map_get
    (fun j r => (findTagRow (RTag.body j) ((assemble t).map (aMapG g))).getD r)
    (rowMapG g) t.rows 0 ?_
  intro i x hx
  dsimp only
  rw [Nat.zero_add, findTag_body_assemble t g hh i, hx]
  rfl

theorem extractHeaders_assemble (t : Table) (g : List PyCell → List PyCell)
    (hh : t.horizontal = false) :
    extractHeaders t ((assemble t).map (aMapG g)) = t.headers.map g := by
  unfold extractHeaders
  show (List.enumFrom 0 t.headers).map _ = _
  refine enumFrom_map_get
    (fun j r =>
      match findTagRow (RTag.hdr j) ((assemble t).map (aMapG g)) with
      | some (PyRow.cells cs) => cs
      | _ => r)
    g t.headers 0 ?_
  intro i x hx
  dsimp only
  rw [Nat.zero_add, findTag_hdr_assemble t g hh i, hx]
  rfl

end Cleo

namespace Cleo

theorem map_self {α : Type} (l : List α) (f : α → α)
    (h : ∀ x ∈ l, f x = x) : l.map f = l := by
  induction l with
  | nil => rfl
  | cons x r ih =>
    simp only [List.map_cons]
    rw [h x (List.mem_cons_self x r), ih (fun y hy => h y (List.mem_cons_of_mem x hy))]

theorem rowMapG_id (r : PyRow) : rowMapG (fun cs => cs) r = r := by
  cases r <;> rfl

theorem aMapG_id (ar : ARow) : aMapG (fun cs => cs) ar = ar := by
  unfold aMapG
  cases hr : ar.row with
  | sep => rw [show rowMapG (fun cs => cs) PyRow.sep = PyRow.sep from rfl, ← hr]
  | cells cs =>
    rw [show rowMapG (fun cs => cs) (PyRow.cells cs) = PyRow.cells cs from rfl, ← hr]

theorem alSet_id {α : Type} (l : List (Nat × α)) (k : Nat) (v : α)
    (h : alGet? l k = some v) : alSet l k v = l := by
  induction l with
  | nil => simp [alGet?] at h
  | cons p r ih =>
    obtain ⟨a, b⟩ := p
    by_cases hp : a = k
    · subst hp
      have hv : b = v := by simpa [alGet?, List.find?] using h
      subst hv
      simp [alSet]
    · have h2 : alGet? r k = some v := by
        simpa [alGet?, List.find?, hp] using h
      simp only [alSet]
      rw [if_neg hp, ih h2]

theorem calcAux_stable (cws mws : List (Nat × Nat)) (tpl : Str)
    (norm : List (Bool × PyRow)) :
    ∀ (cols : List Nat) (eff : List (Nat × Nat)),
      (∀ c ∈ cols,
        alGet? eff c = some (colWidthVal cws mws norm c + tpl.length - 2)) →
      calcAux cws mws tpl norm eff cols = eff := by
  intro cols
  induction cols with
  | nil => intro eff _; rfl
  | cons c0 rest ih =>
    intro eff h
    simp only [calcAux]
    rw [alSet_id eff c0 (colWidthVal cws mws norm c0 + tpl.length - 2)
      (h c0 (List.mem_cons_self c0 rest))]
    exact ih eff (fun c hc => h c (List.mem_cons_of_mem c0 hc))

theorem buildYield_nil (rows : List ARow) :
    buildYield rows [] =
      rows.map (fun ar => (ar.isDiv, fillCellsRow ar.row)) := by
  unfold buildYield
  have h1 : ∀ (l : List (Nat × ARow)),
      (l.flatMap fun p => ((p.2.isDiv, fillCellsRow p.2.row) ::
        ((alGetD ([] : List (Nat × List (List PyCell))) p.1 []).map
          (fun fr => (false, fillCellsRow (PyRow.cells fr)))))) =
      l.map (fun p => (p.2.isDiv, fillCellsRow p.2.row)) := by
    intro l
    induction l with
    | nil => rfl
    | cons p r ih =>
      simp only [List.flatMap_cons, ih, List.map_cons]
      rfl
  rw [h1]
  have h2 := List.map_map (fun ar : ARow => (ar.isDiv, fillCellsRow ar.row))
    Prod.snd rows.enum
  rw [List.enum_map_snd] at h2
  exact h2.symm

theorem tfm_map_id (rows : List ARow) (h : rows.all aRowNoNl = true) :
    rows.map (aMapG (List.map transformCell)) = rows := by
  apply map_self
  intro ar har
  have hnl : aRowNoNl ar = true := (List.all_eq_true.mp h) ar har
  unfold aRowNoNl at hnl
  unfold aMapG
  cases hr : ar.row with
  | sep => rw [show rowMapG (List.map transformCell) PyRow.sep = PyRow.sep from rfl, ← hr]
  | cells cs =>
    rw [hr] at hnl
    dsimp only at hnl
    have hcs : cs.map transformCell = cs := by
      apply map_self
      intro c hc
      have hcnl := (List.all_eq_true.mp hnl) c hc
      have hcf : hasChar c.textOf '\n' = false := by simpa using hcnl
      simp [transformCell, hcf]
    rw [show rowMapG (List.map transformCell) (PyRow.cells cs) =
      PyRow.cells (cs.map transformCell) from rfl, hcs, ← hr]

theorem all_of_imp {α : Type} (p q : α → Bool) (l : List α)
    (himp : ∀ x ∈ l, p x = true → q x = true) (h : l.all p = true) :
    l.all q = true := by
  apply List.all_eq_true.mpr
  intro x hx
  exact himp x hx ((List.all_eq_true.mp h) x hx)

theorem tagHeaders_all (Q : PyRow → Bool) :
    ∀ (hs : List (List PyCell)) (off : Nat),
      (tagHeaders off hs).all (fun ar => Q ar.row) =
        hs.all (fun h => Q (PyRow.cells h)) := by
  intro hs
  induction hs with
  | nil => intro off; rfl
  | cons h r ih =>
    intro off
    simp only [tagHeaders, List.all_cons, ih (off + 1)]

theorem tagBody_all (Q : PyRow → Bool) :
    ∀ (rs : List PyRow) (off : Nat),
      (tagBody off rs).all (fun ar => Q ar.row) = rs.all Q := by
  intro rs
  induction rs with
  | nil => intro off; rfl
  | cons r rest ih =>
    intro off
    simp only [tagBody, List.all_cons, ih (off + 1)]

theorem assemble_all (t : Table) (hh : t.horizontal = false) (Q : PyRow → Bool)
    (hsep : Q PyRow.sep = true) :
    (assemble t).all (fun ar => Q ar.row) =
      (t.headers.all (fun h => Q (PyRow.cells h)) && t.rows.all Q) := by
  rw [assemble_vertical t hh]
  simp only [List.all_append, List.all_cons]
  rw [tagHeaders_all Q t.headers 0, tagBody_all Q t.rows 0]
  simp [hsep]

theorem cellClean_mut (c : PyCell) (h : cellClean c = true) :
    cellMutClean c = true := by
  simp only [cellClean, Bool.and_eq_true] at h
  exact h.1

theorem cellClean_noNl (c : PyCell) (h : cellClean c = true) :
    (!hasChar c.textOf '\n') = true := by
  simp only [cellClean, Bool.and_eq_true] at h
  exact h.2

theorem rowClean_mut (r : PyRow) (h : rowClean r = true) :
    rowMutClean r = true := by
  cases r with
  | sep => rfl
  | cells cs => exact all_of_imp _ _ cs (fun c _ hc => cellClean_mut c hc) h

theorem tableClean_mutClean (t : Table) (h : tableClean t = true) :
    tableMutClean t = true := by
  simp only [tableClean, Bool.and_eq_true] at h
  simp only [tableMutClean, Bool.and_eq_true]
  refine ⟨?_, ?_⟩
  · exact all_of_imp _ _ t.headers
      (fun hd _ hhd => all_of_imp _ _ hd (fun c _ hc => cellClean_mut c hc) hhd) h.1
  · exact all_of_imp _ _ t.rows (fun r _ hr => rowClean_mut r hr) h.2

theorem assemble_mutClean (t : Table) (hh : t.horizontal = false)
    (h : tableMutClean t = true) : (assemble t).all aRowMutClean = true := by
  have e : (assemble t).all aRowMutClean =
      (assemble t).all (fun ar => rowMutClean ar.row) := rfl
  rw [e, assemble_all t hh rowMutClean rfl]
  exact h

theorem assemble_noNl (t : Table) (hh : t.horizontal = false)
    (h : tableClean t = true) : (assemble t).all aRowNoNl = true := by
  have e : (assemble t).all aRowNoNl = (assemble t).all (fun ar =>
      (match ar.row with
        | PyRow.sep => true
        | PyRow.cells cs => cs.all (fun c => !hasChar c.textOf '\n'))) := rfl
  rw [e, assemble_all t hh
    (fun r => match r with
      | PyRow.sep => true
      | PyRow.cells cs => cs.all (fun c => !hasChar c.textOf '\n')) rfl]
  simp only [tableClean, Bool.and_eq_true] at h
  simp only [Bool.and_eq_true]
  constructor
  · refine all_of_imp _ _ t.headers (fun hd _ hhd => ?_) h.1
    exact all_of_imp _ _ hd (fun c _ hc => cellClean_noNl c hc) hhd
  · refine all_of_imp _ _ t.rows (fun r _ hr => ?_) h.2
    cases r with
    | sep => rfl
    | cells cs => exact all_of_imp _ _ cs (fun c _ hc => cellClean_noNl c hc) hr

theorem rowMutClean_sfRow (r : PyRow) (h : rowMutClean r = true) :
    sfRow r = true := by
  cases r with
  | sep => rfl
  | cells cs =>
    refine all_of_imp _ _ cs (fun c _ hc => ?_) h
    simp only [cellMutClean, Bool.and_eq_true] at hc
    exact hc.2

theorem allMutClean_sfRow (rows : List ARow) (h : rows.all aRowMutClean = true) :
    rows.all (fun ar => sfRow ar.row) = true :=
  all_of_imp _ _ rows (fun ar _ har => rowMutClean_sfRow ar.row har) h

theorem firstFrag_noNl (c : PyCell) :
    hasChar (firstFragCell c).textOf '\n' = false := by
  unfold firstFragCell
  dsimp only
  split
  · exact splitOnNl_head_noNl _
  · exact splitOnNl_head_noNl _

theorem transformCell_ne (c : PyCell) (h : hasChar c.textOf '\n' = true) :
    ¬ transformCell c = c := by
  intro he
  have h2 : hasChar (transformCell c).textOf '\n' = false := by
    unfold transformCell
    rw [if_pos h]
    exact firstFrag_noNl c
  rw [he, h] at h2
  exact Bool.noConfusion h2

end Cleo
namespace Cleo

theorem render_shape (t : Table) (hh : t.horizontal = false)
    (hm : t.columnMaxWidths = []) (hclean : tableClean t = true) :
    ∃ out,
      drawAll t
          (calcColumnWidths t (calcNumberOfColumns (assemble t))
            (buildYield (assemble t) []))
          (calcNumberOfColumns (assemble t)) (buildYield (assemble t) []) =
        Except.ok out ∧
      render t = Except.ok (out,
        { t with
          effectiveColumnWidths :=
            calcColumnWidths t (calcNumberOfColumns (assemble t))
              (buildYield (assemble t) [])
          numberOfColumns := none
          columnWidths := []
          rendered := true }) := by
  have hac : (assemble t).all aRowMutClean = true :=
    assemble_mutClean t hh (tableClean_mutClean t hclean)
  have hanl : (assemble t).all aRowNoNl = true := assemble_noNl t hh hclean
  obtain ⟨um2, hb, _, hnl⟩ :=
    buildTableRows_spec t (calcNumberOfColumns (assemble t)) hm hac
  rw [tfm_map_id (assemble t) hanl, hnl hanl] at hb
  have hsfn : (buildYield (assemble t) []).all (fun p => sfRow p.2) = true :=
    buildYield_sf (assemble t) [] (allMutClean_sfRow (assemble t) hac) rfl
  obtain ⟨out, hd⟩ := drawAll_ok t
    (calcColumnWidths t (calcNumberOfColumns (assemble t))
      (buildYield (assemble t) []))
    (calcNumberOfColumns (assemble t)) (buildYield (assemble t) []) hsfn
  refine ⟨out, hd, ?_⟩
  have hidid : (assemble t).map (aMapG (fun cs => cs)) = assemble t :=
    map_self _ _ (fun ar _ => aMapG_id ar)
  have hH : extractHeaders t (assemble t) = t.headers := by
    rw [← hidid, extractHeaders_assemble t (fun cs => cs) hh]
    exact map_self _ _ (fun x _ => rfl)
  have hR : extractRows t (assemble t) = t.rows := by
    rw [← hidid, extractRows_assemble t (fun cs => cs) hh]
    exact map_self _ _ (fun r _ => rowMapG_id r)
  simp only [render, bind, Except.bind]
  rw [hb]
  simp only [bind, Except.bind]
  rw [hd]
  simp only [bind, Except.bind, pure, Except.pure]
  rw [hH, hR]

end Cleo
namespace Cleo

/-- C1 (corrected): rendering twice is repeatable for a vertical-mode
table with no configured per-column width floors or max-width ceilings and
whose cells carry no line breaks, no rowspan above 1, no per-cell style and
no `None` entries: both calls succeed with the same output lines.  (The
original universal claim fails: multi-line cells are truncated in place by
the first render — see the counterexample — and `_cleanup` erases the
configured `_column_widths`, so a width floor influences only the first
call.) -/
theorem c1_amended (t : Table) (hh : t.horizontal = false)
    (hcw : t.columnWidths = []) (hm : t.columnMaxWidths = [])
    (hclean : tableClean t = true) :
    ∃ out t2 t3,
      render t = Except.ok (out, t2) ∧ render t2 = Except.ok (out, t3) := by
  obtain ⟨out, hdo, hr1⟩ := render_shape t hh hm hclean
  obtain ⟨out2, hdo2, hr2⟩ := render_shape
    { t with
      effectiveColumnWidths :=
        calcColumnWidths t (calcNumberOfColumns (assemble t))
          (buildYield (assemble t) [])
      numberOfColumns := none
      columnWidths := []
      rendered := true } hh hm hclean
  have hstable : calcAux ([] : List (Nat × Nat)) t.columnMaxWidths
      t.style.cellRowContentFormat (buildYield (assemble t) [])
      (calcColumnWidths t (calcNumberOfColumns (assemble t))
        (buildYield (assemble t) []))
      (List.range (calcNumberOfColumns (assemble t))) =
      calcColumnWidths t (calcNumberOfColumns (assemble t))
        (buildYield (assemble t) []) := by
    rw [hm]
    apply calcAux_stable
    intro c hc
    have hlook := calcAux_lookup t.columnWidths t.columnMaxWidths
      t.style.cellRowContentFormat (buildYield (assemble t) []) c
      (List.range (calcNumberOfColumns (assemble t))) t.effectiveColumnWidths
    rw [if_pos hc] at hlook
    show alGet? (calcAux t.columnWidths t.columnMaxWidths
      t.style.cellRowContentFormat (buildYield (assemble t) [])
      t.effectiveColumnWidths
      (List.range (calcNumberOfColumns (assemble t)))) c =
      some (colWidthVal ([] : List (Nat × Nat)) ([] : List (Nat × Nat))
        (buildYield (assemble t) []) c +
        t.style.cellRowContentFormat.length - 2)
    rw [hlook, hcw, hm]
  have hE2 : calcColumnWidths
      { t with
        effectiveColumnWidths :=
          calcColumnWidths t (calcNumberOfColumns (assemble t))
            (buildYield (assemble t) [])
        numberOfColumns := none
        columnWidths := []
        rendered := true }
      (calcNumberOfColumns (assemble
        { t with
          effectiveColumnWidths :=
            calcColumnWidths t (calcNumberOfColumns (assemble t))
              (buildYield (assemble t) [])
          numberOfColumns := none
          columnWidths := []
          rendered := true }))
      (buildYield (assemble
        { t with
          effectiveColumnWidths :=
            calcColumnWidths t (calcNumberOfColumns (assemble t))
              (buildYield (assemble t) [])
          numberOfColumns := none
          columnWidths := []
          rendered := true }) []) =
      calcColumnWidths t (calcNumberOfColumns (assemble t))
        (buildYield (assemble t) []) := hstable
  rw [hE2] at hdo2
  have hdd : drawAll
      { t with
        effectiveColumnWidths :=
          calcColumnWidths t (calcNumberOfColumns (assemble t))
            (buildYield (assemble t) [])
        numberOfColumns := none
        columnWidths := []
        rendered := true }
      (calcColumnWidths t (calcNumberOfColumns (assemble t))
        (buildYield (assemble t) []))
      (calcNumberOfColumns (assemble
        { t with
          effectiveColumnWidths :=
            calcColumnWidths t (calcNumberOfColumns (assemble t))
              (buildYield (assemble t) [])
          numberOfColumns := none
          columnWidths := []
          rendered := true }))
      (buildYield (assemble
        { t with
          effectiveColumnWidths :=
            calcColumnWidths t (calcNumberOfColumns (assemble t))
              (buildYield (assemble t) [])
          numberOfColumns := none
          columnWidths := []
          rendered := true }) []) =
      drawAll t
        (calcColumnWidths t (calcNumberOfColumns (assemble t))
          (buildYield (assemble t) []))
        (calcNumberOfColumns (assemble t)) (buildYield (assemble t) []) := rfl
  rw [hdd, hdo] at hdo2
  injection hdo2 with hout
  rw [← hout] at hr2
  exact ⟨out, _, _, hr1, hr2⟩

end Cleo
namespace Cleo

/-- C1, witness: the one-cell table `[["ab"]]` renders twice with the same
three lines. -/
theorem c1_witness :
    ∃ out t2 t3,
      render w1Table = Except.ok (out, t2) ∧
        render t2 = Except.ok (out, t3) :=
  c1_amended w1Table rfl rfl rfl (by decide)

/-- C10: `render` mutates the stored rows in place.  For a vertical-mode
table (no max-width map, cells with rowspan at most 1, no per-cell style,
no `None` entries) whose stored row `j` holds at cell `k` a cell whose text
contains a line break, `render` succeeds, and afterwards the table's row
`j` is the same cell list with every line-break cell overwritten by its
first fragment (`transformCell`); the overwritten cell differs from the
original, so the stored rows differ from what the caller set. -/
theorem c10_row_mutation (t : Table) (j k : Nat) (cs : List PyCell)
    (c : PyCell) (hh : t.horizontal = false) (hm : t.columnMaxWidths = [])
    (hmc : tableMutClean t = true)
    (hj : t.rows.get? j = some (PyRow.cells cs))
    (hk : cs.get? k = some c)
    (hnl : hasChar c.textOf '\n' = true) :
    ∃ out t2,
      render t = Except.ok (out, t2) ∧
      t2.rows.get? j = some (PyRow.cells (cs.map transformCell)) ∧
      (cs.map transformCell).get? k = some (transformCell c) ∧
      transformCell c ≠ c ∧
      t2.rows ≠ t.rows := by
  have hac : (assemble t).all aRowMutClean = true := assemble_mutClean t hh hmc
  obtain ⟨um2, hb, hsf, _⟩ :=
    buildTableRows_spec t (calcNumberOfColumns (assemble t)) hm hac
  have hsfn : (buildYield ((assemble t).map (aMapG (List.map transformCell)))
      um2).all (fun p => sfRow p.2) = true :=
    buildYield_sf _ um2 (tfm_rows_sf (assemble t) hac) hsf
  obtain ⟨out, hd⟩ := drawAll_ok t
    (calcColumnWidths t (calcNumberOfColumns (assemble t))
      (buildYield ((assemble t).map (aMapG (List.map transformCell))) um2))
    (calcNumberOfColumns (assemble t))
    (buildYield ((assemble t).map (aMapG (List.map transformCell))) um2) hsfn
  have hR : extractRows t ((assemble t).map (aMapG (List.map transformCell))) =
      t.rows.map (rowMapG (List.map transformCell)) :=
    extractRows_assemble t (List.map transformCell) hh
  have htne : ¬ transformCell c = c := transformCell_ne c hnl
  have hrender : render t = Except.ok (out,
      { t with
        headers :=
          extractHeaders t ((assemble t).map (aMapG (List.map transformCell)))
        rows := t.rows.map (rowMapG (List.map transformCell))
        effectiveColumnWidths :=
          calcColumnWidths t (calcNumberOfColumns (assemble t))
            (buildYield ((assemble t).map (aMapG (List.map transformCell))) um2)
        numberOfColumns := none
        columnWidths := []
        rendered := true }) := by
    simp only [render, bind, Except.bind]
    rw [hb]
    simp only [bind, Except.bind]
    rw [hd]
    simp only [bind, Except.bind, pure, Except.pure]
    rw [hR]
  refine ⟨out, _, hrender, ?_, ?_, htne, ?_⟩
  · show (t.rows.map (rowMapG (List.map transformCell))).get? j =
      some (PyRow.cells (cs.map transformCell))
    rw [List.get?_map, hj]
    rfl
  · rw [List.get?_map, hk]
    rfl
  · show ¬ t.rows.map (rowMapG (List.map transformCell)) = t.rows
    intro he
    have h1 := congrArg (fun l => List.get? l j) he
    simp only [List.get?_map, hj, Option.map_some', Option.some.injEq] at h1
    have h2 : cs.map transformCell = cs := by
      have h3 : rowMapG (List.map transformCell) (PyRow.cells cs) =
          PyRow.cells cs := h1
      simp only [rowMapG, PyRow.cells.injEq] at h3
      exact h3
    have h4 := congrArg (fun l => List.get? l k) h2
    simp only [List.get?_map, hk, Option.map_some', Option.some.injEq] at h4
    exact htne h4

/-- C10, witness: the stored row `[["a\nb"]]` is overwritten by the first
render; afterwards the table holds the single-line first fragment, not the
original two-line cell. -/
theorem c10_witness :
    ∃ out t2,
      render c1Table = Except.ok (out, t2) ∧
      t2.rows.get? 0 =
        some (PyRow.cells ([PyCell.plain ('a' :: '\n' :: 'b' :: [])].map
          transformCell)) ∧
      ([PyCell.plain ('a' :: '\n' :: 'b' :: [])].map transformCell).get? 0 =
        some (transformCell (PyCell.plain ('a' :: '\n' :: 'b' :: []))) ∧
      transformCell (PyCell.plain ('a' :: '\n' :: 'b' :: [])) ≠
        PyCell.plain ('a' :: '\n' :: 'b' :: []) ∧
      t2.rows ≠ c1Table.rows :=
  c10_row_mutation c1Table 0 0 [PyCell.plain ('a' :: '\n' :: 'b' :: [])]
    (PyCell.plain ('a' :: '\n' :: 'b' :: [])) rfl rfl (by decide) rfl rfl
    (by decide)

end Cleo
